import Mathlib

set_option maxRecDepth 8000

/-!
Verification of the client side of the NodeCG standalone-replicants library:
a shallow embedding of `src/shared.ts` (path codec, mutation-interception
layer, `applyOperation`, `readReplicant`) and of the `Replicant` class
(declare state machine, assignment/operations handlers, validation), with
theorems checking the specification's claims against the embedded code.

JavaScript values are modelled by the inductive type `JVal`.  Object and
array nodes carry a numeric identity (`id`), standing for the JS heap
identity that the source's `WeakMap`s key on; two nodes are the "same
object" exactly when their ids coincide.  Machine numbers are modelled as
`Int` (the source only ever handles integral revisions and indices; NaN
and floats are outside the model).
-/

/-- Model of a JavaScript value.  `obj`/`arr` carry a heap identity used by
the `WeakMap`-based ownership metadata of `shared.ts`. -/
inductive JVal where
  | undef
  | nul
  | bool (b : Bool)
  | num (n : Int)
  | str (s : String)
  | obj (id : Nat) (fields : List (String × JVal))
  | arr (id : Nat) (elems : List JVal)

/-- JS `typeof` on the modelled values (`typeof null` is `"object"`). -/
def jsTypeof : JVal → String
  | .undef => "undefined"
  | .nul => "object"
  | .bool _ => "boolean"
  | .num _ => "number"
  | .str _ => "string"
  | .obj _ _ => "object"
  | .arr _ _ => "object"

/-- JS falsiness (`!v`): `undefined`, `null`, `false`, `0` and `""` are
falsy; objects and arrays are always truthy.  (NaN is outside the model.) -/
def jsFalsy : JVal → Bool
  | .undef => true
  | .nul => true
  | .bool b => !b
  | .num n => n = 0
  | .str s => s = ""
  | .obj _ _ => false
  | .arr _ _ => false

/-- Strict-equality test against `undefined` (`v === undefined`). -/
def isUndef : JVal → Bool
  | .undef => true
  | _ => false

/-- JS strict equality `===`: structural on primitives, heap identity on
objects and arrays. -/
def jsStrictEq : JVal → JVal → Bool
  | .undef, .undef => true
  | .nul, .nul => true
  | .bool x, .bool y => x = y
  | .num x, .num y => x = y
  | .str x, .str y => x = y
  | .obj i _, .obj j _ => i = j
  | .arr i _, .arr j _ => i = j
  | _, _ => false

/-- `Array.prototype.toString`: elements joined with `,`, where `null` and
`undefined` render as the empty string and nested arrays are joined
recursively (used by `jsToString` below). -/
def jsElemsToString : List JVal → String
  | [] => ""
  | v :: rest =>
    let s : String :=
      match v with
      | .undef => ""
      | .nul => ""
      | .bool b => if b then "true" else "false"
      | .num n => toString n
      | .str s => s
      | .obj _ _ => "[object Object]"
      | .arr _ elems => jsElemsToString elems
    match rest with
    | [] => s
    | w :: ws => s ++ "," ++ jsElemsToString (w :: ws)
termination_by l => sizeOf l
decreasing_by all_goals (simp_wf <;> omega)

/-- JS `String(v)` coercion for the modelled values (used by the default
array `sort` comparator and by error-message interpolation). -/
def jsToString : JVal → String
  | .undef => "undefined"
  | .nul => "null"
  | .bool b => if b then "true" else "false"
  | .num n => toString n
  | .str s => s
  | .obj _ _ => "[object Object]"
  | .arr _ elems => jsElemsToString elems

mutual

/-- Structural deep equality, the model of the `deep-equal` package used at
declare time (`equal(this.value, data.value)`).  Heap ids are ignored;
object fields are compared as key/value sets.  (The package's loose
primitive coercions, e.g. `1 == '1'`, are outside the model.) -/
def jsDeepEqual : JVal → JVal → Bool
  | .undef, .undef => true
  | .nul, .nul => true
  | .bool x, .bool y => x = y
  | .num x, .num y => x = y
  | .str x, .str y => x = y
  | .obj _ f1, .obj _ f2 => Nat.beq f1.length f2.length && fieldsSubset f1 f2
  | .arr _ e1, .arr _ e2 => elemsDeepEq e1 e2
  | _, _ => false

def fieldsSubset : List (String × JVal) → List (String × JVal) → Bool
  | [], _ => true
  | (k, v) :: t, f2 =>
    (match lookupField f2 k with
     | some v2 => jsDeepEqual v v2
     | none => false)
    && fieldsSubset t f2

def elemsDeepEq : List JVal → List JVal → Bool
  | [], [] => true
  | x :: xs, y :: ys => jsDeepEqual x y && elemsDeepEq xs ys
  | _, _ => false

/-- First field with the given key (JS objects have unique keys). -/
def lookupField : List (String × JVal) → String → Option JVal
  | [], _ => none
  | (k, v) :: t, key => if k = key then some v else lookupField t key

end

mutual

/-- Model of the `clone` package: a deep copy whose object/array nodes get
fresh heap identities (allocated from `fresh` upward).  Returns the copy
and the next unused id. -/
def cloneVal : JVal → Nat → JVal × Nat
  | .obj _ fields, fresh =>
    let (fields2, f2) := cloneFields fields (fresh + 1)
    (.obj fresh fields2, f2)
  | .arr _ elems, fresh =>
    let (elems2, f2) := cloneElems elems (fresh + 1)
    (.arr fresh elems2, f2)
  | v, fresh => (v, fresh)

def cloneFields : List (String × JVal) → Nat → List (String × JVal) × Nat
  | [], fresh => ([], fresh)
  | (k, v) :: rest, fresh =>
    let (v2, f1) := cloneVal v fresh
    let (rest2, f2) := cloneFields rest f1
    ((k, v2) :: rest2, f2)

def cloneElems : List JVal → Nat → List JVal × Nat
  | [], fresh => ([], fresh)
  | v :: rest, fresh =>
    let (v2, f1) := cloneVal v fresh
    let (rest2, f2) := cloneElems rest f1
    (v2 :: rest2, f2)

end

mutual

/-- All heap ids of object/array nodes reachable in a value tree. -/
def reachIds : JVal → List Nat
  | .obj id fields => id :: reachFieldIds fields
  | .arr id elems => id :: reachElemIds elems
  | _ => []

def reachFieldIds : List (String × JVal) → List Nat
  | [] => []
  | (_, v) :: rest => reachIds v ++ reachFieldIds rest

def reachElemIds : List JVal → List Nat
  | [] => []
  | v :: rest => reachIds v ++ reachElemIds rest

end

/-! ## Path codec (`shared.ts` lines 217-256)

Strings are handled through their character lists; `splitSlash` and
`joinSlash` are the embeddings of JS `String.prototype.split('/')` and
`Array.prototype.join('/')`, and `escapeSeg`/`unescapeSeg` embed the
global-regex replaces `replace(/\//g, '~1')` / `replace(/~1/g, '/')`. -/

/-- JS `str.split('/')` on a character list.  `''.split('/') = ['']`. -/
def splitSlash : List Char → List (List Char)
  | [] => [[]]
  | c :: rest =>
    if c = '/' then [] :: splitSlash rest
    else
      match splitSlash rest with
      | [] => [[c]]
      | s :: ss => (c :: s) :: ss

/-- JS `arr.join('/')` on character-list segments. -/
def joinSlash : List (List Char) → List Char
  | [] => []
  | s :: ss =>
    match ss with
    | [] => s
    | _ :: _ => s ++ '/' :: joinSlash ss

/-- JS `part.replace(/~1/g, '/')`: left-to-right, non-overlapping. -/
def unescapeSeg : List Char → List Char
  | [] => []
  | [c] => [c]
  | c :: c2 :: rest2 =>
    if c = '~' ∧ c2 = '1' then '/' :: unescapeSeg rest2
    else c :: unescapeSeg (c2 :: rest2)

/-- JS `key.replace(/\//g, '~1')` (the escaping applied by
`proxyRecursive` before a key is joined into a path). -/
def escapeSeg : List Char → List Char
  | [] => []
  | c :: rest =>
    if c = '/' then '~' :: '1' :: escapeSeg rest
    else c :: escapeSeg rest

/-- Whether the two-character escape token `~1` occurs in the list. -/
def hasEsc : List Char → Bool
  | [] => false
  | [_] => false
  | c :: c2 :: rest2 =>
    if c = '~' ∧ c2 = '1' then true
    else hasEsc (c2 :: rest2)

/-- `pathStrToPathArr` on character lists: drop the leading separator
(`substr(1)`), split on `/`, un-escape each part, and normalize the
single-empty-segment list to the empty list (`shared.ts` 222-238). -/
def pathStrToPathArrL (p : List Char) : List (List Char) :=
  let pathArr := (splitSlash (p.drop 1)).map unescapeSeg
  if pathArr = [[]] then [] else pathArr

/-- `pathArrToPathStr` on character lists: join with `/` and ensure a
leading separator (`shared.ts` 245-252). -/
def pathArrToPathStrL (pathArr : List (List Char)) : List Char :=
  let path := joinSlash pathArr
  if path.head? = some '/' then path else '/' :: path

/-- Converts a string path `/a/b/c` to an array path `['a','b','c']`
(`shared.ts` `pathStrToPathArr`). -/
def pathStrToPathArr (path : String) : List String :=
  (pathStrToPathArrL path.toList).map List.asString

/-- Converts an array path `['a','b','c']` to a string path `/a/b/c`
(`shared.ts` `pathArrToPathStr`). -/
def pathArrToPathStr (pathArr : List String) : String :=
  (pathArrToPathStrL (pathArr.map String.toList)).asString

/-- `shared.ts` `joinPathParts`: append with a separator unless the base
already ends with one. -/
def joinPathParts (part1 part2 : String) : String :=
  if part1.toList.getLast? = some '/' then part1 ++ part2 else part1 ++ "/" ++ part2

/-- The key escaping done by `proxyRecursive` (`key.replace(/\//g,'~1')`). -/
def escapeKey (key : String) : String :=
  (escapeSeg key.toList).asString

/-- The per-segment un-escaping done inside `pathStrToPathArr`
(`part.replace(/~1/g, '/')`). -/
def unescapeKey (part : String) : String :=
  (unescapeSeg part.toList).asString

/-- A well-formed path string: starts with the separator, has no empty
leading segment, and contains no occurrence of the escape token `~1`
(a raw `~1` is ambiguous with an escaped `/`). -/
def wellFormedPath (p : String) : Prop :=
  p.toList.head? = some '/' ∧ (p.toList.drop 1).head? ≠ some '/' ∧ hasEsc p.toList = false

/-! ## Replicant identity, metadata and errors

The source compares Replicant objects by JS reference
(`metadata.replicant !== replicant`); a `RepRef` carries the numeric
process-wide identity `rid` together with the `namespace`/`name` strings
that the ownership error message interpolates.  (`namespace` is a Lean
keyword, so the field is called `nsp` throughout.) -/

structure RepRef where
  rid : Nat
  nsp : String
  name : String
deriving DecidableEq

/-- The metadata record of `shared.ts` (`{replicant, path, proxy}`).  One
record is shared between `metadataMap` (keyed by the raw target) and
`proxyMetadataMap` (keyed by the proxy), which the state below models by
storing records once in `metas` and pointing at them from both maps. -/
structure Meta where
  owner : RepRef
  path : String
  proxy : Nat
deriving DecidableEq

/-- The module-level `WeakMap`/`WeakSet` state of `shared.ts`:
`metadataMap` maps raw-target ids to records, `proxyMetadataMap` maps
proxy ids to records (both indirect through `metas` so that a path update
through either map is seen through the other, as with the shared JS
record), `proxySet` is the set of proxy ids, and `freshId` allocates heap
ids for newly created `Proxy` objects. -/
structure PState where
  metas : List (Nat × Meta)
  metadataMap : List (Nat × Nat)
  proxyMetadataMap : List (Nat × Nat)
  proxySet : List Nat
  freshId : Nat
deriving DecidableEq

/-- Association-list lookup (model of `WeakMap.get`). -/
def getA {κ α : Type} [DecidableEq κ] : List (κ × α) → κ → Option α
  | [], _ => none
  | (k, v) :: t, key => if k = key then some v else getA t key

/-- Association-list overwrite-or-insert (model of `WeakMap.set`). -/
def setA {κ α : Type} [DecidableEq κ] : List (κ × α) → κ → α → List (κ × α)
  | [], key, v => [(key, v)]
  | (k, v') :: t, key, v => if k = key then (key, v) :: t else (k, v') :: setA t key v

/-- Errors thrown by the embedded code.  The JS side throws `Error`
objects with interpolated message strings; here the interpolated data is
kept structurally (for `invalidValue` the full composed message is kept,
since the claims speak about its contents). -/
inductive RepError where
  | ownership (onsp oname : String) (value : JVal)
  | undefinedValue
  | invalidValue (msg : String)
  | mustSupplyName
  | mustSupplyNamespace
  | rejection (reason : JVal)
  | typeError (method : String)
  | unexpectedMethod (method : String)

/-- The heap id of an object/array node (primitives have none). -/
def jnodeId : JVal → Option Nat
  | .obj id _ => some id
  | .arr id _ => some id
  | _ => none

/-- The metadata record visible for a node id: through `proxyMetadataMap`
if the id is a registered proxy, else through `metadataMap`
(`assertSingleOwner`'s lookup order, `shared.ts` 330-340). -/
def metaOf (s : PState) (id : Nat) : Option Meta :=
  if id ∈ s.proxySet then (getA s.proxyMetadataMap id).bind (getA s.metas)
  else (getA s.metadataMap id).bind (getA s.metas)

/-- `shared.ts` `assertSingleOwner` (330-354): `some` of the thrown
ownership error if the node already belongs to a different Replicant,
`none` otherwise. -/
def assertSingleOwner (r : RepRef) (v : JVal) (s : PState) : Option RepError :=
  match jnodeId v with
  | none => none
  | some id =>
    match metaOf s id with
    | none => none
    | some m =>
      if m.owner ≠ r then some (.ownership m.owner.nsp m.owner.name v) else none

/-- Update the path of the shared metadata record `mid`
(`metadata.path = path` through either map). -/
def updateMetaPath (s : PState) (mid : Nat) (path : String) : PState :=
  { s with
    metas :=
      match getA s.metas mid with
      | some m => setA s.metas mid { m with path := path }
      | none => s.metas }

/-- The per-node body of `proxyRecursive` (`shared.ts` 276-302): reuse the
existing proxy and refresh the recorded path, or create a fresh proxy and
register the metadata record in both maps.  Returns the proxy id and the
updated state. -/
def wrapNode (r : RepRef) (id : Nat) (path : String) (s : PState) : Nat × PState :=
  if id ∈ s.proxySet then
    -- `value` is already a Proxy: p = value, refresh metadata.path
    (id,
      match getA s.proxyMetadataMap id with
      | some mid => updateMetaPath s mid path
      | none => s)
  else
    match getA s.metadataMap id with
    | some mid =>
      -- already wrapped: p = metadata.proxy, refresh metadata.path
      ((match getA s.metas mid with
        | some m => m.proxy
        | none => 0),
        updateMetaPath s mid path)
    | none =>
      -- fresh node: allocate the Proxy (array- vs object-specific handler
      -- has no effect on this state) and register the shared record
      let pid := s.freshId
      let m : Meta := { owner := r, path := path, proxy := pid }
      (pid,
        { metas := setA s.metas pid m
          metadataMap := setA s.metadataMap id pid
          proxyMetadataMap := setA s.proxyMetadataMap pid pid
          proxySet := pid :: s.proxySet
          freshId := pid + 1 })

mutual

/-- `shared.ts` `proxyRecursive` (266-323).  Pure state-passing embedding:
the thrown ownership error is an `Except.error` and the module state is
returned alongside (a JS exception leaves all `WeakMap` mutations made so
far in place, which the returned state captures).  The recursion into
members models `value[key] = proxyRecursive(...)` as a direct field
replacement in the returned tree. -/
def proxyRecursive (r : RepRef) (v : JVal) (path : String) (s : PState) :
    Except RepError JVal × PState :=
  match v with
  | .obj id fields =>
    match assertSingleOwner r v s with
    | some e => (.error e, s)
    | none =>
      let ps := wrapNode r id path s
      match proxyFields r path fields ps.2 with
      | (.error e, s2) => (.error e, s2)
      | (.ok fields2, s2) => (.ok (.obj ps.1 fields2), s2)
  | .arr id elems =>
    match assertSingleOwner r v s with
    | some e => (.error e, s)
    | none =>
      let ps := wrapNode r id path s
      match proxyElems r path elems 0 ps.2 with
      | (.error e, s2) => (.error e, s2)
      | (.ok elems2, s2) => (.ok (.arr ps.1 elems2), s2)
  | _ => (.ok v, s)

/-- The own-enumerable-member loop of `proxyRecursive` for objects:
escape the key, extend the path (`joinPathParts` unless the base path is
empty/falsy) and recurse, left to right. -/
def proxyFields (r : RepRef) (path : String) (fields : List (String × JVal)) (s : PState) :
    Except RepError (List (String × JVal)) × PState :=
  match fields with
  | [] => (.ok [], s)
  | (key, v) :: rest =>
    let escapedKey := escapeKey key
    let joinedPath := if path ≠ "" then joinPathParts path escapedKey else escapedKey
    match proxyRecursive r v joinedPath s with
    | (.error e, s1) => (.error e, s1)
    | (.ok w, s1) =>
      match proxyFields r path rest s1 with
      | (.error e, s2) => (.error e, s2)
      | (.ok rest2, s2) => (.ok ((key, w) :: rest2), s2)

/-- The member loop for arrays: `for..in` enumerates the indices
`"0"`, `"1"`, ... as keys. -/
def proxyElems (r : RepRef) (path : String) (elems : List JVal) (i : Nat) (s : PState) :
    Except RepError (List JVal) × PState :=
  match elems with
  | [] => (.ok [], s)
  | v :: rest =>
    let escapedKey := escapeKey (Nat.repr i)
    let joinedPath := if path ≠ "" then joinPathParts path escapedKey else escapedKey
    match proxyRecursive r v joinedPath s with
    | (.error e, s1) => (.error e, s1)
    | (.ok w, s1) =>
      match proxyElems r path rest (i + 1) s1 with
      | (.error e, s2) => (.error e, s2)
      | (.ok rest2, s2) => (.ok (w :: rest2), s2)

end

/-! ## `object-path` embedding

`applyOperation` resolves operation paths with the `object-path` package
(`get`, `set`, `has`); these are embedded over `JVal` trees.  Array
elements are addressed by decimal-string keys, as JS index coercion does. -/

/-- Decimal digit value of a character, if it is one. -/
def decDigit? (c : Char) : Option Nat :=
  if '0' ≤ c ∧ c ≤ '9' then some (c.toNat - '0'.toNat) else none

/-- Parse a non-empty all-digits decimal numeral. -/
def parseDec : List Char → Option Nat
  | [] => none
  | cs =>
    cs.foldl
      (fun acc c =>
        match acc, decDigit? c with
        | some n, some d => some (n * 10 + d)
        | _, _ => none)
      (some 0)

/-- Parse an optionally-signed decimal integer string; anything else is
`none`. -/
def parseIntJS (s : String) : Option Int :=
  match s.toList with
  | '-' :: rest => (parseDec rest).map (fun n => -(n : Int))
  | cs => (parseDec cs).map (fun n => (n : Int))

/-- Overwrite-or-append a field (JS `target[key] = v` on an object). -/
def setField : List (String × JVal) → String → JVal → List (String × JVal)
  | [], key, nv => [(key, nv)]
  | (k, v) :: t, key, nv =>
    if k = key then (key, nv) :: t else (k, v) :: setField t key nv

/-- Remove a field (JS `delete target[key]` on an object). -/
def removeField : List (String × JVal) → String → List (String × JVal)
  | [], _ => []
  | (k, v) :: t, key => if k = key then t else (k, v) :: removeField t key

/-- JS `target[i] = v` on an array, padding holes with `undefined` when
writing past the end. -/
def setElem (elems : List JVal) (i : Nat) (nv : JVal) : List JVal :=
  if i < elems.length then elems.set i nv
  else elems ++ List.replicate (i - elems.length) .undef ++ [nv]

/-- JS property read `v[k]` (missing members read as `undefined`). -/
def getKey (v : JVal) (k : String) : JVal :=
  match v with
  | .obj _ fields => (lookupField fields k).getD .undef
  | .arr _ elems =>
    match parseDec k.toList with
    | some i => elems.getD i .undef
    | none => .undef
  | _ => JVal.undef

/-- JS own-property test used by `objectPath.has` at the final key. -/
def hasKey (v : JVal) (k : String) : Bool :=
  match v with
  | .obj _ fields => (lookupField fields k).isSome
  | .arr _ elems =>
    match parseDec k.toList with
    | some i => i < elems.length
    | none => false
  | _ => false

/-- `objectPath.get` over an array path; missing members yield `undefined`. -/
def opGet (v : JVal) : List String → JVal
  | [] => v
  | k :: rest => opGet (getKey v k) rest

/-- `objectPath.has` over an array path. -/
def opHas (v : JVal) : List String → Bool
  | [] => true
  | [k] => hasKey v k
  | k :: k2 :: rest => opHas (getKey v k) (k2 :: rest)

/-- `objectPath.set` over an array path: sets the member, creating plain
empty objects for missing intermediates (allocating their heap ids from
`fresh`), and returns `(updated tree, former value at the path, next
fresh id)` — the package's `set` returns the old value. -/
def opSet (v : JVal) (path : List String) (nv : JVal) (fresh : Nat) :
    JVal × JVal × Nat :=
  match path with
  | [] => (v, .undef, fresh)
  | [k] =>
    let old := getKey v k
    match v with
    | .obj id fields => (.obj id (setField fields k nv), old, fresh)
    | .arr id elems =>
      (match parseDec k.toList with
       | some i => (.arr id (setElem elems i nv), old, fresh)
       | none => (v, old, fresh))
    | _ => (v, .undef, fresh)
  | k :: k2 :: rest =>
    let child := getKey v k
    let (child2, f1) :=
      match child with
      | .obj _ _ => (child, fresh)
      | .arr _ _ => (child, fresh)
      | _ => (JVal.obj fresh [], fresh + 1)
    let (sub, old, f2) := opSet child2 (k2 :: rest) nv f1
    match v with
    | .obj id fields => (.obj id (setField fields k sub), old, f2)
    | .arr id elems =>
      (match parseDec k.toList with
       | some i => (.arr id (setElem elems i sub), old, f2)
       | none => (v, old, f2))
    | _ => (v, old, f2)

/-- Write a new subtree at a path that resolves through existing nodes;
models the effect of JS in-place mutation of the node that
`objectPath.get` resolved (arrays are mutated in place by the mutator
methods, `delete` mutates the resolved parent). -/
def replaceAt (v : JVal) : List String → JVal → JVal
  | [], nv => nv
  | k :: rest, nv =>
    match v with
    | .obj id fields => .obj id (setField fields k (replaceAt (getKey v k) rest nv))
    | .arr id elems =>
      (match parseDec k.toList with
       | some i =>
         if i < elems.length then .arr id (elems.set i (replaceAt (elems.getD i .undef) rest nv))
         else v
       | none => v)
    | _ => v

/-- JS `delete target[prop]`: removes the member (array deletion leaves a
hole, modelled as `undefined`) and reports the deletion result, which is
`true` for these configurable members. -/
def delProp (v : JVal) (prop : String) : JVal × Bool :=
  match v with
  | .obj id fields => (.obj id (removeField fields prop), true)
  | .arr id elems =>
    (match parseDec prop.toList with
     | some i => if i < elems.length then (.arr id (elems.set i .undef), true) else (v, true)
     | none => (v, true))
  | _ => (v, true)

/-! ## Array mutator methods (`ARRAY_MUTATOR_METHODS`)

The embeddings of the nine `Array.prototype` mutators invoked through
recorded operations.  Integer arguments follow `ToIntegerOrInfinity` for
numbers, booleans, `null`, `undefined` and simple numeric strings; the
default `sort` comparator is the spec's string-coercion comparison
(comparison of `String` values; undefined elements sort last). -/

def DEFAULT_PERSISTENCE_INTERVAL : Nat := 100

def ARRAY_MUTATOR_METHODS : List String :=
  ["copyWithin", "fill", "pop", "push", "reverse", "shift", "sort", "splice", "unshift"]

/-- `ToIntegerOrInfinity` restricted to the model (non-numeric input
truncates to `0`). -/
def toIntJS : JVal → Int
  | .num n => n
  | .bool b => if b then 1 else 0
  | .str s => (parseIntJS s).getD 0
  | _ => 0

/-- Relative-index normalization used by `fill`, `copyWithin`, `splice`:
negative indices count from the end, the result is clamped to `[0, len]`. -/
def relIndex (i : Int) (len : Nat) : Nat :=
  if i < 0 then ((len : Int) + i).toNat else min i.toNat len

/-- End-index argument: an absent/`undefined` end means the array length. -/
def relEnd (arg : JVal) (len : Nat) : Nat :=
  match arg with
  | .undef => len
  | v => relIndex (toIntJS v) len

/-- Stable insertion into a sorted list (insert before the first
not-smaller element, so earlier elements stay first among equals). -/
def sortInsert (le : JVal → JVal → Bool) (x : JVal) : List JVal → List JVal
  | [] => [x]
  | y :: t => if le x y then x :: y :: t else y :: sortInsert le x t

/-- Stable insertion sort. -/
def insertionSort (le : JVal → JVal → Bool) : List JVal → List JVal
  | [] => []
  | x :: t => sortInsert le x (insertionSort le t)

/-- The default `Array.prototype.sort`: undefined elements go last, the
rest are ordered by their `String(..)` coercions. -/
def jsSort (elems : List JVal) : List JVal :=
  let p := elems.partition (fun v => match v with | .undef => false | _ => true)
  insertionSort (fun a b => decide (jsToString a ≤ jsToString b)) p.1 ++ p.2

/-- One array-mutator invocation `arr[method].apply(arr, args)` on an
array node with identity `id`: returns `(return value, new elements,
next fresh id)` (`splice` allocates a fresh array for its return
value). -/
def applyMutator (method : String) (id : Nat) (elems : List JVal) (args : List JVal)
    (fresh : Nat) : JVal × List JVal × Nat :=
  let len := elems.length
  if method = "push" then
    (.num (len + args.length), elems ++ args, fresh)
  else if method = "pop" then
    ((elems.getLast?).getD .undef, elems.dropLast, fresh)
  else if method = "shift" then
    ((elems.head?).getD .undef, elems.tail, fresh)
  else if method = "unshift" then
    (.num (args.length + len), args ++ elems, fresh)
  else if method = "reverse" then
    (.arr id elems.reverse, elems.reverse, fresh)
  else if method = "sort" then
    let sorted := jsSort elems
    (.arr id sorted, sorted, fresh)
  else if method = "fill" then
    let value := args.getD 0 .undef
    let start := relIndex (toIntJS (args.getD 1 .undef)) len
    let stop := relEnd (args.getD 2 .undef) len
    let elems2 := elems.enum.map (fun p => if start ≤ p.1 ∧ p.1 < stop then value else p.2)
    (.arr id elems2, elems2, fresh)
  else if method = "copyWithin" then
    let target := relIndex (toIntJS (args.getD 0 .undef)) len
    let start := relIndex (toIntJS (args.getD 1 .undef)) len
    let stop := relEnd (args.getD 2 .undef) len
    let count := min (stop - start) (len - target)
    let elems2 := elems.take target ++ ((elems.drop start).take count) ++ elems.drop (target + count)
    (.arr id elems2, elems2, fresh)
  else if method = "splice" then
    let start := relIndex (toIntJS (args.getD 0 .undef)) len
    let deleteCount :=
      if args.length = 0 then 0
      else if args.length = 1 then len - start
      else relIndex (toIntJS (args.getD 1 .undef)) (len - start)
    let removed := (elems.drop start).take deleteCount
    let items := args.drop 2
    let elems2 := elems.take start ++ items ++ elems.drop (start + deleteCount)
    (.arr fresh removed, elems2, fresh + 1)
  else
    (.undef, elems, fresh)

/-! ## The `Replicant` class (`Replicant.ts`)

The class state is `RState`; the module-level proxy/metadata state is
`PState`; `World` bundles the two for the functions that touch both.
Socket emissions are collected as `OutMsg` values, `EventEmitter`
notifications as `Event` values (an `Event.change` records exactly the
arguments passed to `emit`, with `none` for an absent argument), and a
thrown exception is an `err` field, with the state mutated so far kept
(JS exceptions do not roll back assignments already made). -/

inductive Status where
  | undeclared
  | declaring
  | declared
deriving DecidableEq

/-- `ReplicantOptions`: `none` models an `undefined` member. -/
structure Opts where
  persistent : Option Bool
  persistenceInterval : Option Nat
deriving DecidableEq

/-- One entry of the `is-my-json-valid` validator's `errors` list. -/
structure VErr where
  field : String
  message : String
  value : JVal
  type : String

/-- The compiled validator is external (`is-my-json-valid`): abstractly, a
function from the candidate value to the validation outcome and the
errors it reports. -/
def Validator : Type := JVal → Bool × List VErr

/-- A queued pre-declare action (`_queueAction(fn, args)`); the only
function the source ever queues is `_proposeAssignment` with the proposed
value as its one argument. -/
inductive RAction where
  | propose (newValue : JVal)

/-- The argument payload of an operation record: `{prop, newValue}` for
`add`/`update`, `{prop}` for `delete`, the argument array for the array
mutator methods. -/
inductive OpArgs where
  | propVal (prop : String) (newValue : JVal)
  | propOnly (prop : String)
  | argList (args : List JVal)

def opProp : OpArgs → String
  | .propVal prop _ => prop
  | .propOnly prop => prop
  | .argList _ => "undefined"

def opNewValue : OpArgs → JVal
  | .propVal _ newValue => newValue
  | _ => .undef

def opArgList : OpArgs → List JVal
  | .argList args => args
  | _ => []

/-- An operation record (`{path, method, args}`, plus the `result` member
that `_handleOperations` writes back after applying it). -/
structure Operation where
  path : String
  method : String
  args : OpArgs
  result : Option JVal

/-- The `Replicant` instance state. -/
structure RState where
  rid : Nat
  name : String
  nsp : String
  value : JVal
  opts : Opts
  revision : Nat
  status : Status
  operationQueue : List Operation
  actionQueue : List RAction
  schema : Option JVal
  schemaSum : String
  validationErrors : List VErr
  validator : Option Validator
  ignoreProxy : Bool
  declRejListeners : Nat
  assignRejListeners : Nat

/-- The reference identity of a Replicant instance. -/
def rref (r : RState) : RepRef :=
  { rid := r.rid, nsp := r.nsp, name := r.name }

/-- Instance state together with the module-level proxy state. -/
structure World where
  rep : RState
  pst : PState

/-- Outbound socket emissions. -/
inductive OutMsg where
  | joinRoom (room : String)
  | declareMsg (name nsp : String) (opts : Opts)
  | proposeAssignment (name nsp : String) (value : JVal) (schemaSum : String) (opts : Opts)
  | read (name nsp : String)

/-- The `replicant:declare` / `replicant:proposeAssignment`
acknowledgement payload. -/
structure AckData where
  value : JVal
  revision : Nat
  schema : Option JVal
  schemaSum : String
  rejectReason : Option JVal

/-- Emitted `EventEmitter` notifications.  `change` records the arguments
actually passed to `emit` — `none` marks an argument that was not passed
at all (e.g. `emit('change')` passes none of the three). -/
inductive Event where
  | change (newValue : Option JVal) (oldValue : Option JVal) (operations : Option (List Operation))
  | declared (data : AckData)
  | fullUpdate (value : JVal) (revision : Nat)
  | declarationRejected (reason : JVal)
  | assignmentRejected (reason : JVal)

/-- Result of running one handler: the updated world, the socket
emissions, the notifications, and the exception it threw, if any. -/
structure HOut where
  w : World
  msgs : List OutMsg
  events : List Event
  err : Option RepError

/-! ## `shared.ts` `applyOperation` (356-409) -/

/-- `shared.ts` `applyOperation`: guard against a falsy value, raise the
suppression flag, resolve the path, dispatch on the method, drop the
flag.  A throw leaves the flag raised (the source has no `finally`). -/
def applyOperation (w : World) (op : Operation) : Except RepError JVal × World :=
  if jsFalsy w.rep.value then (.error .undefinedValue, w)
  else
    let r1 := { w.rep with ignoreProxy := true }
    let path := pathStrToPathArr op.path
    if op.method ∈ ARRAY_MUTATOR_METHODS then
      match opGet w.rep.value path with
      | .arr id elems =>
        let (res, elems2, f2) := applyMutator op.method id elems (opArgList op.args) w.pst.freshId
        -- the in-place mutation of the resolved array
        let v1 := replaceAt w.rep.value path (.arr id elems2)
        -- re-wrap the mutated array to proxy newly introduced structures
        match proxyRecursive (rref r1) (.arr id elems2) op.path { w.pst with freshId := f2 } with
        | (.error e, pst2) => (.error e, { rep := { r1 with value := v1 }, pst := pst2 })
        | (.ok wrapped, pst2) =>
          let elems3 := match wrapped with | .arr _ es => es | _ => elems2
          (.ok res,
            { rep := { r1 with value := replaceAt w.rep.value path (.arr id elems3), ignoreProxy := false }
              pst := pst2 })
      | _ =>
        -- the resolved target has no such method: JS TypeError
        (.error (.typeError op.method), { w with rep := r1 })
    else if op.method = "add" ∨ op.method = "update" then
      let path2 := path ++ [opProp op.args]
      let nv0 := opNewValue op.args
      match (if jsTypeof nv0 = "object" then proxyRecursive (rref r1) nv0 (pathArrToPathStr path2) w.pst
             else (.ok nv0, w.pst)) with
      | (.error e, pst2) => (.error e, { rep := r1, pst := pst2 })
      | (.ok nv, pst2) =>
        let (tree, old, f2) := opSet w.rep.value path2 nv pst2.freshId
        (.ok old,
          { rep := { r1 with value := tree, ignoreProxy := false }
            pst := { pst2 with freshId := f2 } })
    else if op.method = "delete" then
      if path.length = 0 ∨ opHas w.rep.value path then
        let target := opGet w.rep.value path
        let (target2, ok) := delProp target (opProp op.args)
        (.ok (.bool ok),
          { rep := { r1 with value := replaceAt w.rep.value path target2, ignoreProxy := false }
            pst := w.pst })
      else
        -- guard false: `result` stays undefined
        (.ok .undef, { w with rep := { r1 with ignoreProxy := false } })
    else
      (.error (.unexpectedMethod op.method), { w with rep := r1 })

/-! ## `Replicant` methods -/

/-- `error.field.replace(/^data\./, '')`: strip a leading `data.` from a
validator field name. -/
def stripDataDot (f : String) : String :=
  if f.toList.take 5 = ['d', 'a', 't', 'a', '.'] then (f.toList.drop 5).asString else f

/-- The composed message header of a validation failure
(`Invalid value rejected for replicant "..." in namespace "...":`). -/
def errHeader (r : RState) : String :=
  "Invalid value rejected for replicant \"" ++ r.name ++ "\" in namespace \"" ++ r.nsp ++ "\":\n"

/-- One line of the validation error message (field name stripped of the
`data.` prefix; value/type detail only for wrong-type errors). -/
def errLine (e : VErr) : String :=
  let f := stripDataDot e.field
  if e.message = "is the wrong type" then
    "\tField \"" ++ f ++ "\" " ++ e.message ++ ". Value \"" ++ jsToString e.value
      ++ "\" (type: " ++ jsTypeof e.value ++ ") was provided, expected type \""
      ++ e.type ++ "\"\n "
  else if e.message = "has additional properties" then
    "\tField \"" ++ f ++ "\" " ++ e.message ++ ": \"" ++ jsToString e.value ++ "\"\n"
  else
    "\tField \"" ++ f ++ "\" " ++ e.message ++ "\n"

/-- The `errors.forEach` loop of `validate` (189-205): the callback
appends its line to the message and then throws from inside the first
iteration, so iteration never proceeds past the first error. -/
def errLoop (acc : String) : List VErr → Option String
  | [] => none
  | e :: _ => some (acc ++ errLine e)

/-- `Replicant.validate` (177-212): `true` with no compiled validator;
otherwise run the validator, record its error list, and (unless opted
out) throw the composed message produced by the loop above. -/
def validate (r : RState) (value : JVal) (throwOnInvalid : Bool) :
    RState × Except RepError Bool :=
  match r.validator with
  | none => (r, .ok true)
  | some f =>
    let res := f value
    if res.1 then (r, .ok true)
    else
      let r2 := { r with validationErrors := res.2 }
      if throwOnInvalid then
        match errLoop (errHeader r) res.2 with
        | some msg => (r2, .error (.invalidValue msg))
        | none => (r2, .ok false)
      else (r2, .ok false)

/-- `_proposeAssignment`'s socket emission (233-242). -/
def proposeStep (r : RState) (newValue : JVal) : OutMsg :=
  .proposeAssignment r.name r.nsp newValue r.schemaSum r.opts

/-- The acknowledgement callback of `_proposeAssignment` (243-256):
absorb a fresher schema, then surface a rejection through the
`assignmentRejected` notification or a throw. -/
def proposeAck (r : RState) (data : AckData) : RState × List Event × Option RepError :=
  let r1 :=
    match data.schema with
    | some s => { r with schema := some s, schemaSum := data.schemaSum }
    | none => r
  match data.rejectReason with
  | some reason =>
    if r1.assignRejListeners > 0 then (r1, [.assignmentRejected reason], none)
    else (r1, [], some (.rejection reason))
  | none => (r1, [], none)

/-- The `value` branch of the constructor proxy's `set` trap
(`getReplicantHandler`, 70-90).  With the suppression flag up the write
is a raw assignment; an unchanged value (strict equality) is a no-op;
otherwise validate, then queue the proposal when not declared, else emit
it.  (Writes to properties other than `value` are raw assignments and
are outside this embedding.) -/
def setValueTrap (w : World) (newValue : JVal) : HOut :=
  if w.rep.ignoreProxy then
    { w := { w with rep := { w.rep with value := newValue } }, msgs := [], events := [], err := none }
  else if jsStrictEq newValue w.rep.value then
    { w := w, msgs := [], events := [], err := none }
  else
    match validate w.rep newValue true with
    | (r2, .error e) => { w := { w with rep := r2 }, msgs := [], events := [], err := some e }
    | (r2, .ok _) =>
      if r2.status ≠ .declared then
        { w := { w with rep := { r2 with actionQueue := r2.actionQueue ++ [RAction.propose newValue] } }
          msgs := [], events := [], err := none }
      else
        { w := { w with rep := r2 }, msgs := [proposeStep r2 newValue], events := [], err := none }

/-- `_assignValue` (334-344): snapshot the old value with `clone`, rewrap
the new value through `proxyRecursive` rooted at `'/'`, update the
revision only when one was supplied, and `emit('change', value,
oldValue)` — two arguments, no operations argument. -/
def assignValue (w : World) (newValue : JVal) (revision : Option Nat) : HOut :=
  let c := cloneVal w.rep.value w.pst.freshId
  match proxyRecursive (rref w.rep) newValue "/" { w.pst with freshId := c.2 } with
  | (.error e, pst2) => { w := { w with pst := pst2 }, msgs := [], events := [], err := some e }
  | (.ok v2, pst2) =>
    let r2 :=
      { w.rep with
        value := v2
        revision := match revision with | some rev => rev | none => w.rep.revision }
    { w := { rep := r2, pst := pst2 }, msgs := [], events := [.change (some v2) (some c.1) none]
      err := none }

/-- The `replicant:assignment` payload. -/
structure AssignData where
  name : String
  nsp : String
  newValue : JVal
  revision : Nat

/-- `_handleAssignment` (346-353). -/
def handleAssignment (w : World) (data : AssignData) : HOut :=
  if data.name ≠ w.rep.name ∨ data.nsp ≠ w.rep.nsp then
    { w := w, msgs := [], events := [], err := none }
  else
    assignValue w data.newValue (some data.revision)

/-- `shared.ts` `readReplicant` (411-426): reject a missing/non-string
name or namespace before touching the socket, otherwise emit exactly one
`replicant:read` with the acknowledgement callback. -/
def readReplicant (name nsp : JVal) : Except RepError (List OutMsg) :=
  if jsFalsy name ∨ jsTypeof name ≠ "string" then .error .mustSupplyName
  else if jsFalsy nsp ∨ jsTypeof nsp ≠ "string" then .error .mustSupplyNamespace
  else
    .ok [.read (match name with | .str s => s | v => jsToString v)
               (match nsp with | .str s => s | v => jsToString v)]

/-- The callback `_fullUpdate` registers on its `replicant:read` (392-397):
emit `fullUpdate` with the fetched data, then Assign it. -/
def fullUpdateAck (w : World) (value : JVal) (revision : Nat) : HOut :=
  let a := assignValue w value (some revision)
  { a with events := .fullUpdate value revision :: a.events }

/-- The `replicant:operations` payload. -/
structure OpsData where
  name : String
  nsp : String
  revision : Nat
  operations : List Operation

/-- The `data.operations.forEach` loop of `_handleOperations` (379-381):
apply each operation in order, writing its result back onto the record;
an exception stops the loop and propagates. -/
def applyOpsLoop (w : World) : List Operation → Except RepError (List Operation) × World
  | [] => (.ok [], w)
  | op :: rest =>
    match applyOperation w op with
    | (.error e, w1) => (.error e, w1)
    | (.ok res, w1) =>
      match applyOpsLoop w1 rest with
      | (.error e, w2) => (.error e, w2)
      | (.ok rest2, w2) => (.ok ({ op with result := some res } :: rest2), w2)

/-- `_handleOperations` (355-384): ignore while not declared or for a
different replicant; on a revision gap issue the full-update fetch
(`_fullUpdate` → `readReplicant`); otherwise snapshot, apply the batch in
order, advance the revision to the incoming one and emit one `change`
with `(value, oldValue, operations)`. -/
def handleOperations (w : World) (data : OpsData) : HOut :=
  if w.rep.status ≠ .declared then
    { w := w, msgs := [], events := [], err := none }
  else
    let expectedRevision := w.rep.revision + 1
    if data.name ≠ w.rep.name ∨ data.nsp ≠ w.rep.nsp then
      { w := w, msgs := [], events := [], err := none }
    else if data.revision ≠ expectedRevision then
      match readReplicant (.str w.rep.name) (.str w.rep.nsp) with
      | .error e => { w := w, msgs := [], events := [], err := some e }
      | .ok msgs => { w := w, msgs := msgs, events := [], err := none }
    else
      let c := cloneVal w.rep.value w.pst.freshId
      let w1 : World := { w with pst := { w.pst with freshId := c.2 } }
      match applyOpsLoop w1 data.operations with
      | (.error e, w2) => { w := w2, msgs := [], events := [], err := some e }
      | (.ok ops2, w2) =>
        { w := { w2 with rep := { w2.rep with revision := data.revision } }
          msgs := []
          events := [.change (some w2.rep.value) (some c.1) (some ops2)]
          err := none }

/-- `_handleDisconnect` (386-390). -/
def handleDisconnect (r : RState) : RState :=
  { r with status := .undeclared, operationQueue := [], actionQueue := [] }

/-- The synchronous part of `_declare` (260-267): a no-op while already
declaring or declared, else mark `declaring` and join the namespace room
(the `replicant:declare` emission itself happens in the room-join ack). -/
def declareStep (r : RState) : RState × List OutMsg :=
  if r.status = .declared ∨ r.status = .declaring then (r, [])
  else ({ r with status := .declaring }, [.joinRoom ("replicant:" ++ r.nsp)])

/-- The `joinRoom` acknowledgement (267-274): send `replicant:declare`. -/
def joinRoomAck (r : RState) : List OutMsg :=
  [.declareMsg r.name r.nsp r.opts]

/-- The pre-declare action drain (322-328): each queued item replays
`_proposeAssignment` against the current state, in FIFO order. -/
def runActions (r : RState) : List RAction → List OutMsg
  | [] => []
  | .propose v :: rest => proposeStep r v :: runActions r rest

/-- The `replicant:declare` acknowledgement callback (275-329),
parameterized by the external validator compiler (`is-my-json-valid`).
A rejection without a `declarationRejected` listener throws before
anything else runs; otherwise: status becomes `declared`; a revision or
deep-equality mismatch Assigns the authoritative value (an Assign
exception propagates); a supplied schema is stored and compiled; the
`declared` notification is emitted; the empty-declare special case emits
a bare `change`; finally the queued actions drain FIFO and the queue is
cleared. -/
def declareAck (compile : JVal → Validator) (w : World) (data : AckData) : HOut :=
  match data.rejectReason, w.rep.declRejListeners with
  | some reason, 0 => { w := w, msgs := [], events := [], err := some (.rejection reason) }
  | maybeReason, _ =>
    let evs0 : List Event :=
      match maybeReason with
      | some reason => [.declarationRejected reason]
      | none => []
    let w1 : World := { w with rep := { w.rep with status := .declared } }
    let afterAssign : HOut :=
      if w1.rep.revision ≠ data.revision ∨ ¬ jsDeepEqual w1.rep.value data.value then
        assignValue w1 data.value (some data.revision)
      else
        { w := w1, msgs := [], events := [], err := none }
    match afterAssign.err with
    | some e => { afterAssign with events := evs0 ++ afterAssign.events, err := some e }
    | none =>
      let w2 := afterAssign.w
      let r2 :=
        match data.schema with
        | some s =>
          { w2.rep with schema := some s, schemaSum := data.schemaSum
                        validator := some (compile s) }
        | none => w2.rep
      let evs1 := evs0 ++ afterAssign.events ++ [.declared data]
      let evs2 :=
        if isUndef r2.value ∧ r2.revision = 0 then evs1 ++ [.change none none none]
        else evs1
      if r2.actionQueue.isEmpty then
        { w := { w2 with rep := r2 }, msgs := [], events := evs2, err := none }
      else
        { w := { w2 with rep := { r2 with actionQueue := [] } }
          msgs := runActions r2 r2.actionQueue
          events := evs2
          err := none }

/-! ## Registry and constructor (`Replicant` constructor, 115-164) -/

/-- The module-level `declaredReplicants` registry and the id allocator
for new instances: namespace, then name, to the (proxied) instance. -/
structure GState where
  registry : List (String × List (String × Nat))
  nextRid : Nat

/-- What one constructor call produced: the instance returned (`inst` is
the identity of the proxy the constructor evaluates to), the updated
registry state, the socket emissions, the socket subscriptions
registered, the options object after the constructor ran (the source
mutates the caller's `opts`), and the freshly initialized instance state
if one was created. -/
structure CtorOut where
  inst : Nat
  g : GState
  msgs : List OutMsg
  subs : List String
  opts : Opts
  newRep : Option RState

/-- The non-short-circuit tail of the constructor (142-163): apply option
defaults, begin declaring, subscribe the four socket handlers, register
the proxied instance. -/
def constructFresh (name nsp : String) (opts : Opts) (g : GState) : CtorOut :=
  let opts2 : Opts :=
    { persistent := some (opts.persistent.getD true)
      persistenceInterval := some (opts.persistenceInterval.getD DEFAULT_PERSISTENCE_INTERVAL) }
  let rid := g.nextRid
  let r0 : RState :=
    { rid := rid, name := name, nsp := nsp, value := .undef, opts := opts2
      revision := 0, status := .undeclared, operationQueue := [], actionQueue := []
      schema := none, schemaSum := "", validationErrors := [], validator := none
      ignoreProxy := false, declRejListeners := 0, assignRejListeners := 0 }
  let (r1, msgs) := declareStep r0
  let bucket := (getA g.registry nsp).getD []
  { inst := rid
    g := { registry := setA g.registry nsp (setA bucket name rid), nextRid := rid + 1 }
    msgs := msgs
    subs := ["replicant:assignment", "replicant:operations", "disconnect", "reconnect"]
    opts := opts2
    newRep := some r1 }

/-- The constructor (115-164).  If the registry already holds an instance
for `(namespace, name)`, that instance is returned and the rest of the
constructor is skipped; a missing namespace bucket is created first. -/
def construct (name nsp : String) (opts : Opts) (g : GState) : CtorOut :=
  match getA g.registry nsp with
  | some bucket =>
    match getA bucket name with
    | some rid =>
      { inst := rid, g := g, msgs := [], subs := [], opts := opts, newRep := none }
    | none => constructFresh name nsp opts g
  | none => constructFresh name nsp opts { g with registry := setA g.registry nsp [] }

/-! ## Ownership predicates (for the single-owner claims)

`ownerOf` reads the owning Replicant recorded for a node id; `freshOK`
says the allocator is ahead of every id the maps mention (which the
`WeakMap`s guarantee in JS, where `Proxy` allocation can never collide
with an existing object); `treeOK` says a tree's node ids are below the
allocator. -/

def ownerOf (s : PState) (id : Nat) : Option RepRef :=
  (metaOf s id).map Meta.owner

def freshOK (s : PState) : Prop :=
  (∀ j, s.freshId ≤ j →
    j ∉ s.proxySet ∧ getA s.metadataMap j = none ∧ getA s.proxyMetadataMap j = none)
  ∧ (∀ id mid, getA s.metadataMap id = some mid → mid < s.freshId)
  ∧ (∀ id mid, getA s.proxyMetadataMap id = some mid → mid < s.freshId)

def treeOK (s : PState) (v : JVal) : Prop :=
  ∀ id ∈ reachIds v, id < s.freshId

def fieldsOK (s : PState) (fields : List (String × JVal)) : Prop :=
  ∀ id ∈ reachFieldIds fields, id < s.freshId

def elemsOK (s : PState) (elems : List JVal) : Prop :=
  ∀ id ∈ reachElemIds elems, id < s.freshId

/-! ## Concrete sample states (used by witnesses and counterexamples) -/

/-- Replicant references and module state for the ownership scenarios:
`c4Owner` (instance 1, `ns1::A`) already owns node 10 at path `/x`;
`c4Claimant` (instance 2, `ns2::B`) already owns node 5 at path `/old`. -/
def c4Owner : RepRef := { rid := 1, nsp := "ns1", name := "A" }

def c4Claimant : RepRef := { rid := 2, nsp := "ns2", name := "B" }

def c4State : PState :=
  { metas := [(5, { owner := c4Claimant, path := "/old", proxy := 5 }),
              (10, { owner := c4Owner, path := "/x", proxy := 10 })]
    metadataMap := [(5, 5), (10, 10)]
    proxyMetadataMap := []
    proxySet := []
    freshId := 100 }

/-- A tree wrapping node 5 (already the claimant's) at key `a` and the
other Replicant's node 10 at key `b`. -/
def c4Tree : JVal := .obj 1 [("a", .obj 5 []), ("b", .obj 10 [])]

def sampleOpts : Opts :=
  { persistent := none, persistenceInterval := none }

def sampleRep : RState :=
  { rid := 0, name := "counter", nsp := "bundle", value := .undef, opts := sampleOpts
    revision := 0, status := .undeclared, operationQueue := [], actionQueue := []
    schema := none, schemaSum := "", validationErrors := [], validator := none
    ignoreProxy := false, declRejListeners := 0, assignRejListeners := 0 }

def samplePState : PState :=
  { metas := [], metadataMap := [], proxyMetadataMap := [], proxySet := [], freshId := 100 }

def sampleWorld : World :=
  { rep := { sampleRep with status := .declared, value := .num 1 }, pst := samplePState }

/-- A validator reporting two wrong-type errors (fields `data.a` and
`data.b`), for exercising `validate`. -/
def twoErrValidator : Validator :=
  fun _ =>
    (false,
      [{ field := "data.a", message := "is the wrong type", value := .num 1, type := "string" },
       { field := "data.b", message := "is the wrong type", value := .num 2, type := "string" }])

def twoErrRep : RState :=
  { sampleRep with name := "r", nsp := "n", validator := some twoErrValidator }

/-- A declared sample world at revision 5 holding `{x: 1}` (root node id
1), for exercising the operations handler. -/
def opsWorld : World :=
  { rep := { sampleRep with status := .declared, revision := 5, value := .obj 1 [("x", .num 1)] }
    pst := samplePState }

/-- A `replicant:operations` batch at revision 6 updating `x` to `2`. -/
def opsData6 : OpsData :=
  { name := "counter", nsp := "bundle", revision := 6
    operations := [{ path := "/", method := "update", args := .propVal "x" (.num 2)
                     result := none }] }

/-- The message of the validation error thrown for `twoErrRep` (composed
header plus the line of the first reported error). -/
def twoErrMsg : String :=
  errHeader twoErrRep
    ++ errLine { field := "data.a", message := "is the wrong type", value := .num 1, type := "string" }

/-! # Theorems

## Path codec lemmas (claim C3) -/

theorem splitSlash_ne_nil (l : List Char) : splitSlash l ≠ [] := by
  induction l with
  | nil => simp [splitSlash]
  | cons c rest ih =>
    simp only [splitSlash]
    split
    · simp
    · cases h : splitSlash rest with
      | nil => simp
      | cons s ss => simp

theorem joinSlash_cons (c : Char) (s : List Char) (ss : List (List Char)) :
    joinSlash ((c :: s) :: ss) = c :: joinSlash (s :: ss) := by
  cases ss with
  | nil => simp [joinSlash]
  | cons t ts => simp [joinSlash]

theorem joinSlash_splitSlash (l : List Char) : joinSlash (splitSlash l) = l := by
  induction l with
  | nil => simp [splitSlash, joinSlash]
  | cons c rest ih =>
    simp only [splitSlash]
    split
    · rename_i hc
      cases h : splitSlash rest with
      | nil => exact absurd h (splitSlash_ne_nil rest)
      | cons s ss =>
        rw [h] at ih
        have hj : joinSlash ([] :: s :: ss) = '/' :: joinSlash (s :: ss) := rfl
        rw [hj, ih, hc]
    · cases h : splitSlash rest with
      | nil => exact absurd h (splitSlash_ne_nil rest)
      | cons s ss =>
        rw [h] at ih
        rw [joinSlash_cons, ih]

theorem splitSlash_eq_single_empty (l : List Char) : splitSlash l = [[]] ↔ l = [] := by
  constructor
  · intro h
    have := joinSlash_splitSlash l
    rw [h] at this
    simpa [joinSlash] using this.symm
  · intro h
    subst h
    rfl

theorem hasEsc_tail {c : Char} {rest : List Char} (h : hasEsc (c :: rest) = false) :
    hasEsc rest = false := by
  cases rest with
  | nil => rfl
  | cons c2 t =>
    simp only [hasEsc] at h
    split at h
    · exact absurd h (by simp)
    · exact h

theorem unescapeSeg_of_noEsc (l : List Char) (h : hasEsc l = false) :
    unescapeSeg l = l := by
  induction l with
  | nil => rfl
  | cons c rest ih =>
    cases rest with
    | nil => rfl
    | cons c2 t =>
      simp only [unescapeSeg]
      split
      · rename_i hc
        simp [hasEsc, hc] at h
      · exact congrArg (c :: ·) (ih (hasEsc_tail h))

theorem splitSlash_head {l : List Char} {d : Char} {s : List Char} {ss : List (List Char)}
    (h : splitSlash l = (d :: s) :: ss) : l.head? = some d := by
  have h2 := joinSlash_splitSlash l
  rw [h, joinSlash_cons] at h2
  rw [← h2]
  rfl

theorem map_unescape_splitSlash (l : List Char) (h : hasEsc l = false) :
    (splitSlash l).map unescapeSeg = splitSlash l := by
  induction l with
  | nil => simp [splitSlash, unescapeSeg]
  | cons c rest ih =>
    simp only [splitSlash]
    split
    · rename_i hc
      simp only [List.map_cons]
      rw [ih (hasEsc_tail h)]
      rfl
    · rename_i hc
      cases hs : splitSlash rest with
      | nil => exact absurd hs (splitSlash_ne_nil rest)
      | cons s ss =>
        have ih2 := ih (hasEsc_tail h)
        rw [hs] at ih2
        simp only [List.map_cons] at ih2 ⊢
        have ihs : unescapeSeg s = s := by injection ih2
        have ihss : ss.map unescapeSeg = ss := by injection ih2
        rw [ihss]
        have hu : unescapeSeg (c :: s) = c :: s := by
          cases s with
          | nil => rfl
          | cons d t =>
            simp only [unescapeSeg]
            split
            · rename_i hcd
              obtain ⟨hc1, hd1⟩ := hcd
              have hhead : rest.head? = some d := splitSlash_head hs
              cases rest with
              | nil => simp at hhead
              | cons r0 rt =>
                simp at hhead
                subst hhead
                simp [hasEsc, hc1, hd1] at h
            · exact congrArg (c :: ·) ihs
        rw [hu]

theorem escapeSeg_eq_nil (l : List Char) : escapeSeg l = [] ↔ l = [] := by
  cases l with
  | nil => simp [escapeSeg]
  | cons c rest =>
    simp only [escapeSeg]
    split <;> simp

theorem escapeSeg_head (d : Char) (t : List Char) :
    (escapeSeg (d :: t)).head? = some (if d = '/' then '~' else d) := by
  simp only [escapeSeg]
  split <;> simp_all

theorem unescape_escape (l : List Char) (h : hasEsc l = false) :
    unescapeSeg (escapeSeg l) = l := by
  induction l with
  | nil => rfl
  | cons c rest ih =>
    by_cases hc : c = '/'
    · subst hc
      simp only [escapeSeg, if_pos rfl]
      simp [unescapeSeg, ih (hasEsc_tail h)]
    · simp only [escapeSeg, if_neg hc]
      cases he : escapeSeg rest with
      | nil =>
        have : rest = [] := (escapeSeg_eq_nil rest).mp he
        subst this
        rfl
      | cons d t2 =>
        simp only [unescapeSeg]
        split
        · rename_i hcd
          obtain ⟨hc1, hd1⟩ := hcd
          cases rest with
          | nil => simp [escapeSeg] at he
          | cons r0 rt =>
            have hh := escapeSeg_head r0 rt
            rw [he] at hh
            simp at hh
            by_cases hr : r0 = '/'
            · rw [if_pos hr] at hh
              rw [hd1] at hh
              exact absurd hh.symm (by decide)
            · rw [if_neg hr] at hh
              rw [hd1] at hh
              rw [hc1, ← hh] at h
              simp [hasEsc] at h
        · have := ih (hasEsc_tail h)
          rw [he] at this
          rw [this]

theorem pathL_roundtrip (rest : List Char) (hesc : hasEsc ('/' :: rest) = false)
    (hlead : rest.head? ≠ some '/') :
    pathArrToPathStrL (pathStrToPathArrL ('/' :: rest)) = '/' :: rest := by
  have hre : hasEsc rest = false := hasEsc_tail hesc
  simp only [pathStrToPathArrL, List.drop_one, List.tail_cons]
  rw [map_unescape_splitSlash rest hre]
  by_cases hempty : rest = []
  · subst hempty
    rfl
  · have hne : splitSlash rest ≠ [[]] := fun hcontra =>
      hempty ((splitSlash_eq_single_empty rest).mp hcontra)
    rw [if_neg hne]
    simp only [pathArrToPathStrL]
    rw [joinSlash_splitSlash rest]
    rw [if_neg hlead]


/-- Claim C3, counterexample to the claim as stated: the segment `a/~1`
contains a literal `/`, but it does not survive the escape/unescape round
trip through the codec — escaping gives `a~1~1`, and un-escaping that
yields `a//`. -/
theorem c3_counterexample :
    '/' ∈ "a/~1".toList ∧ unescapeKey (escapeKey "a/~1") ≠ "a/~1" := by
  decide

/-- Claim C3 (amended): (1) for every well-formed path `p` — leading
separator, no leading empty segment, and no occurrence of the escape
token `~1` — converting to segments and back yields `p`; (2) every
segment containing no occurrence of `~1` (in particular, segments
containing a literal `/`) survives the escape/unescape round trip through
the codec unchanged. -/
theorem c3_path_roundtrip :
    (∀ p : String, wellFormedPath p → pathArrToPathStr (pathStrToPathArr p) = p)
  ∧ (∀ seg : String, hasEsc seg.toList = false → unescapeKey (escapeKey seg) = seg) := by
  constructor
  · intro p hp
    obtain ⟨hhead, hlead, hesc⟩ := hp
    cases hl : p.toList with
    | nil => rw [hl] at hhead; simp at hhead
    | cons c rest =>
      rw [hl] at hhead hlead hesc
      simp only [List.head?_cons, Option.some.injEq] at hhead
      subst hhead
      simp only [List.drop_one, List.tail_cons] at hlead
      have hL := pathL_roundtrip rest hesc hlead
      simp only [pathStrToPathArr, pathArrToPathStr]
      rw [hl, List.map_map]
      have hmap : (List.asString · |>.toList) = (String.toList ∘ List.asString) := rfl
      have hid : (pathStrToPathArrL ('/' :: rest)).map (String.toList ∘ List.asString)
          = pathStrToPathArrL ('/' :: rest) := by
        rw [List.map_congr_left (fun l _ => ?_), List.map_id]
        exact List.toList_asString l
      rw [hid, hL]
      rw [← hl, String.asString_toList]
  · intro seg hseg
    simp only [unescapeKey, escapeKey, List.toList_asString]
    rw [unescape_escape seg.toList hseg, String.asString_toList]

/-- Claim C3, witness: the amended round trips evaluated at the concrete
path `/a/b~1c` and the concrete segment
`b/c`. -/
theorem c3_path_roundtrip_witness :
    pathArrToPathStr (pathStrToPathArr "/a/b") = "/a/b"
  ∧ unescapeKey (escapeKey "b/c") = "b/c" :=
  ⟨c3_path_roundtrip.1 "/a/b" ⟨by decide, by decide, by decide⟩,
   c3_path_roundtrip.2 "b/c" (by decide)⟩

/-! ## Claim C7: declare idempotence -/

/-- Claim C7: calling `_declare` while the status is already `declaring`
or `declared` has no observable effect — no socket emission, no change to
any field of the Replicant. -/
theorem c7_declare_idempotent (r : RState)
    (h : r.status = .declaring ∨ r.status = .declared) :
    declareStep r = (r, []) := by
  rcases h with h | h <;> simp [declareStep, h]

/-- Claim C7, witness: a declared and a declaring sample Replicant. -/
theorem c7_declare_idempotent_witness :
    declareStep { sampleRep with status := .declared }
      = ({ sampleRep with status := .declared }, [])
  ∧ declareStep { sampleRep with status := .declaring }
      = ({ sampleRep with status := .declaring }, []) :=
  ⟨c7_declare_idempotent _ (Or.inr rfl), c7_declare_idempotent _ (Or.inl rfl)⟩

/-! ## Claim C9: `readReplicant` argument checking -/

/-- Claim C9: a missing or non-string name or namespace makes
`readReplicant` fail at call time with no socket message emitted (the
error return carries no emission); with non-empty string arguments
exactly one `replicant:read` message carrying `{name, namespace}` is
emitted, with the acknowledgement callback. -/
theorem c9_read_replicant :
    (∀ name nsp : JVal,
      (jsFalsy name ∨ jsTypeof name ≠ "string" ∨ jsFalsy nsp ∨ jsTypeof nsp ≠ "string") →
      ∃ e, readReplicant name nsp = .error e)
  ∧ (∀ name nsp : String, name ≠ "" → nsp ≠ "" →
      readReplicant (.str name) (.str nsp) = .ok [.read name nsp]) := by
  constructor
  · intro name nsp h
    by_cases h1 : jsFalsy name ∨ jsTypeof name ≠ "string"
    · exact ⟨.mustSupplyName, by simp [readReplicant, h1]⟩
    · refine ⟨.mustSupplyNamespace, ?_⟩
      have h2 : jsFalsy nsp ∨ jsTypeof nsp ≠ "string" := by tauto
      simp [readReplicant, h1, h2]
  · intro name nsp hn hns
    simp [readReplicant, jsFalsy, jsTypeof, hn, hns]

/-- Claim C9, witness: an `undefined` name fails; the sample pair
emits exactly the one read message. -/
theorem c9_read_replicant_witness :
    (∃ e, readReplicant .undef (.str "bundle") = .error e)
  ∧ readReplicant (.str "counter") (.str "bundle") = .ok [.read "counter" "bundle"] :=
  ⟨c9_read_replicant.1 .undef (.str "bundle") (Or.inl (by decide)),
   c9_read_replicant.2 "counter" "bundle" (by decide) (by decide)⟩

/-! ## Claim C10: `applyOperation` undefined-value guard -/

/-- Claim C10: with a falsy Replicant value, `applyOperation` throws the
`undefined value` error before raising the suppression flag and before
applying anything: the whole world (value, revision, `_ignoreProxy`, and
the proxy metadata) is returned unchanged. -/
theorem c10_apply_operation_guard (w : World) (op : Operation)
    (h : jsFalsy w.rep.value = true) :
    applyOperation w op = (.error .undefinedValue, w) := by
  simp [applyOperation, h]

/-- Claim C10, witness: an update operation against an undeclared sample
Replicant whose value is still `undefined`. -/
theorem c10_apply_operation_guard_witness :
    applyOperation { rep := sampleRep, pst := samplePState }
        { path := "/", method := "update", args := .propVal "x" (.num 2), result := none }
      = (.error .undefinedValue, { rep := sampleRep, pst := samplePState }) :=
  c10_apply_operation_guard _ _ (by decide)

/-! ## Claim C2: registry identity short-circuit -/

/-- Claim C2: a construction request for a `(namespace, name)` pair that
is already registered evaluates to the previously registered instance
itself and skips the rest of construction — the registry is unchanged, no
option defaults are applied (the caller's `opts` comes back untouched),
nothing is emitted, no socket subscription is added, and no new instance
state is created. -/
theorem c2_registry_identity (name nsp : String) (opts : Opts) (g : GState) (rid : Nat)
    (h : (getA g.registry nsp).bind (fun bucket => getA bucket name) = some rid) :
    construct name nsp opts g =
      { inst := rid, g := g, msgs := [], subs := [], opts := opts, newRep := none } := by
  simp only [construct]
  cases hb : getA g.registry nsp with
  | none => rw [hb] at h; simp at h
  | some bucket =>
    rw [hb] at h
    simp only [Option.some_bind] at h
    simp [h]

/-- Claim C2, witness: re-constructing `bundle::counter` over a registry
that maps it to instance 7. -/
theorem c2_registry_identity_witness :
    construct "counter" "bundle" sampleOpts
        { registry := [("bundle", [("counter", 7)])], nextRid := 8 }
      = { inst := 7, g := { registry := [("bundle", [("counter", 7)])], nextRid := 8 }
          msgs := [], subs := [], opts := sampleOpts, newRep := none } :=
  c2_registry_identity "counter" "bundle" sampleOpts _ 7 (by decide)

/-! ## Claim C5: the Assign procedure (`_assignValue`) -/

/-- Claim C5, counterexample to the claim as stated: assigning `2` (with
revision 3) over the sample world holding `1` emits one `change`
notification carrying only `(newValue, oldValue)` — the third
(operations) argument is absent, not an empty operations list. -/
theorem c5_counterexample :
    (assignValue sampleWorld (.num 2) (some 3)).events
        = [.change (some (.num 2)) (some (.num 1)) none]
  ∧ (assignValue sampleWorld (.num 2) (some 3)).events
        ≠ [.change (some (.num 2)) (some (.num 1)) (some [])] := by
  constructor
  · rfl
  · intro h
    rw [show (assignValue sampleWorld (.num 2) (some 3)).events
          = [.change (some (.num 2)) (some (.num 1)) none] from rfl] at h
    simp at h

/-- Claim C5 (amended): every `_assignValue` invocation whose rewrap
succeeds snapshots the old value by deep copy (the emitted old value is
the `clone` of the previous value), rewraps the new value through the
mutation-interception layer rooted at the root path, updates the revision
exactly when one is supplied, and emits exactly one `change`
notification — carrying `(newValue, oldValue)` with no operations
argument (not an empty operations list). -/
theorem c5_assign_value (w : World) (newValue : JVal) (revision : Option Nat)
    (v2 : JVal) (pst2 : PState)
    (hwrap : proxyRecursive (rref w.rep) newValue "/"
        { w.pst with freshId := (cloneVal w.rep.value w.pst.freshId).2 } = (.ok v2, pst2)) :
    (assignValue w newValue revision).events
        = [.change (some v2) (some (cloneVal w.rep.value w.pst.freshId).1) none]
  ∧ (assignValue w newValue revision).w.rep.value = v2
  ∧ (∀ rev, revision = some rev → (assignValue w newValue revision).w.rep.revision = rev)
  ∧ (revision = none → (assignValue w newValue revision).w.rep.revision = w.rep.revision)
  ∧ (assignValue w newValue revision).w.pst = pst2
  ∧ (assignValue w newValue revision).msgs = []
  ∧ (assignValue w newValue revision).err = none := by
  cases revision with
  | some rev => simp [assignValue, hwrap]
  | none => simp [assignValue, hwrap]

/-- Claim C5, witness: the amended statement evaluated on the sample
world, assigning `2` at revision 3 (rewrap of a primitive succeeds and
returns it unchanged). -/
theorem c5_assign_value_witness :
    (assignValue sampleWorld (.num 2) (some 3)).events
        = [.change (some (.num 2)) (some (.num 1)) none]
  ∧ (assignValue sampleWorld (.num 2) (some 3)).w.rep.revision = 3 := by
  have h := c5_assign_value sampleWorld (.num 2) (some 3) (.num 2) samplePState rfl
  exact ⟨h.1, h.2.2.1 3 rfl⟩

/-! ## Claim C8: validation errors -/

/-- Claim C8, counterexample to the claim as stated: with a validator
reporting wrong-type errors on both field `a` and field `b`, the error
raised by `validate` names only the first — the message does not contain
field `b` at all, because the source throws from inside the first
iteration of its `errors.forEach` loop. -/
theorem c8_counterexample :
    (validate twoErrRep (.num 0) true).2 = .error (.invalidValue twoErrMsg)
  ∧ twoErrMsg
      = "Invalid value rejected for replicant \"r\" in namespace \"n\":\n"
          ++ "\tField \"a\" is the wrong type. Value \"1\" (type: number) was provided, expected type \"string\"\n "
  ∧ ¬ ("\"b\"".toList <:+: twoErrMsg.toList)
  ∧ ("\"a\"".toList <:+: twoErrMsg.toList) := by
  refine ⟨rfl, by decide, by decide, by decide⟩

/-- Claim C8 (amended): with no compiled validator (`no active schema`),
`validate` always succeeds.  When the validator rejects and throwing is
not opted out, `validate` records the validator's full error list and
raises a synchronous error whose message describes only the first error
of the list (for a wrong-type error: the violated field with its
offending value, actual type and expected type); subsequent violated
fields are not enumerated. -/
theorem c8_validate :
    (∀ (r : RState) (v : JVal) (throwOnInvalid : Bool), r.validator = none →
      validate r v throwOnInvalid = (r, .ok true))
  ∧ (∀ (r : RState) (v : JVal) (f : Validator) (e : VErr) (rest : List VErr),
      r.validator = some f → f v = (false, e :: rest) →
      validate r v true =
        ({ r with validationErrors := e :: rest },
          .error (.invalidValue (errHeader r ++ errLine e)))) := by
  constructor
  · intro r v throwOnInvalid h
    simp [validate, h]
  · intro r v f e rest hval hres
    simp [validate, hval, hres, errLoop]

/-- Claim C8, witness: the amended statement evaluated on a
validator-free sample Replicant and on the two-error sample. -/
theorem c8_validate_witness :
    validate sampleRep (.num 0) true = (sampleRep, .ok true)
  ∧ validate twoErrRep (.num 0) true =
      ({ twoErrRep with validationErrors :=
          [{ field := "data.a", message := "is the wrong type", value := .num 1, type := "string" },
           { field := "data.b", message := "is the wrong type", value := .num 2, type := "string" }] },
        .error (.invalidValue (errHeader twoErrRep
          ++ errLine { field := "data.a", message := "is the wrong type", value := .num 1, type := "string" }))) :=
  ⟨c8_validate.1 sampleRep (.num 0) true rfl,
   c8_validate.2 twoErrRep (.num 0) twoErrValidator _ _ rfl rfl⟩

/-! ## Claim C6: root-level `.value` set -/

/-- Claim C6: assigning `.value` a value strictly equal to the current
one is a no-op — state unchanged, nothing validated (even a rejecting
validator is not consulted), nothing emitted, nothing queued.  A
different value is first validated (a validation throw stops everything,
nothing queued or emitted); then, if declared, exactly the
propose-assignment message is emitted, and if not declared, the set is
captured on the action queue; the queue is replayed FIFO and cleared by
the declare acknowledgement. -/
theorem c6_value_set (w : World) (newValue : JVal) :
    (w.rep.ignoreProxy = false → jsStrictEq newValue w.rep.value = true →
      setValueTrap w newValue = { w := w, msgs := [], events := [], err := none })
  ∧ (∀ r2 ok, w.rep.ignoreProxy = false → jsStrictEq newValue w.rep.value = false →
      validate w.rep newValue true = (r2, .ok ok) → r2.status = .declared →
      setValueTrap w newValue =
        { w := { w with rep := r2 }, msgs := [proposeStep r2 newValue], events := [], err := none })
  ∧ (∀ r2 ok, w.rep.ignoreProxy = false → jsStrictEq newValue w.rep.value = false →
      validate w.rep newValue true = (r2, .ok ok) → r2.status ≠ .declared →
      setValueTrap w newValue =
        { w := { w with rep := { r2 with actionQueue := r2.actionQueue ++ [RAction.propose newValue] } }
          msgs := [], events := [], err := none })
  ∧ (∀ r2 e, w.rep.ignoreProxy = false → jsStrictEq newValue w.rep.value = false →
      validate w.rep newValue true = (r2, .error e) →
      setValueTrap w newValue = { w := { w with rep := r2 }, msgs := [], events := [], err := some e })
  ∧ (∀ (compile : JVal → Validator) (w2 : World) (data : AckData),
      data.rejectReason = none → data.schema = none →
      w2.rep.revision = data.revision → jsDeepEqual w2.rep.value data.value = true →
      (declareAck compile w2 data).w.rep.actionQueue = []
      ∧ (declareAck compile w2 data).msgs
          = runActions { w2.rep with status := .declared } w2.rep.actionQueue) := by
  refine ⟨?_, ?_, ?_, ?_, ?_⟩
  · intro hip heq
    simp [setValueTrap, hip, heq]
  · intro r2 ok hip heq hval hst
    simp [setValueTrap, hip, heq, hval, hst]
  · intro r2 ok hip heq hval hst
    simp [setValueTrap, hip, heq, hval, hst]
  · intro r2 e hip heq hval
    simp [setValueTrap, hip, heq, hval]
  · intro compile w2 data hrej hschema hrev hdeq
    simp only [declareAck, hrej, hschema]
    have hcond : ¬ ({ w2 with rep := { w2.rep with status := Status.declared } }.rep.revision
        ≠ data.revision ∨ ¬ jsDeepEqual
          { w2 with rep := { w2.rep with status := Status.declared } }.rep.value data.value) := by
      simp [hrev, hdeq]
    rw [if_neg hcond]
    simp only
    cases hq : w2.rep.actionQueue with
    | nil => simp [runActions, hq]
    | cons a rest => simp [hq]

/-- Claim C6, witness: on the declared sample world holding `1`,
re-assigning `1` is a no-op; assigning `2` (no validator) emits exactly
the propose-assignment; on an undeclared copy it queues instead; and a
declare ack drains a queued proposal into its message. -/
theorem c6_value_set_witness :
    setValueTrap sampleWorld (.num 1)
      = { w := sampleWorld, msgs := [], events := [], err := none }
  ∧ setValueTrap sampleWorld (.num 2)
      = { w := sampleWorld
          msgs := [.proposeAssignment "counter" "bundle" (.num 2) "" sampleOpts]
          events := [], err := none }
  ∧ setValueTrap { sampleWorld with rep := { sampleWorld.rep with status := .declaring } } (.num 2)
      = { w := { sampleWorld with rep :=
            { sampleWorld.rep with
                status := .declaring
                actionQueue := [RAction.propose (.num 2)] } }
          msgs := [], events := [], err := none }
  ∧ (declareAck (fun _ => fun _ => (true, []))
        { sampleWorld with rep :=
            { sampleWorld.rep with
                status := .declaring
                revision := 4
                actionQueue := [RAction.propose (.num 2)] } }
        { value := .num 1, revision := 4, schema := none, schemaSum := "", rejectReason := none }).msgs
      = [.proposeAssignment "counter" "bundle" (.num 2) "" sampleOpts] := by
  have h := c6_value_set sampleWorld (.num 1)
  have h2 := c6_value_set sampleWorld (.num 2)
  have h3 := c6_value_set { sampleWorld with rep := { sampleWorld.rep with status := .declaring } } (.num 2)
  refine ⟨h.1 rfl (by decide), ?_, ?_, ?_⟩
  · exact h2.2.1 sampleWorld.rep true rfl (by decide) rfl rfl
  · exact h3.2.2.1 { sampleWorld.rep with status := .declaring } true rfl (by decide) rfl (by decide)
  · have h4 := (c6_value_set sampleWorld (.num 0)).2.2.2.2
      (fun _ => fun _ => (true, []))
      { sampleWorld with rep :=
          { sampleWorld.rep with
              status := .declaring
              revision := 4
              actionQueue := [RAction.propose (.num 2)] } }
      { value := .num 1, revision := 4, schema := none, schemaSum := "", rejectReason := none }
      rfl rfl rfl (by decide)
    rw [h4.2]
    rfl

/-! ## Claim C1: revision-gated application of remote operation batches -/

/-- Claim C1: (1) while not declared, a `replicant:operations` message
changes nothing; (2) one naming a different `(namespace, name)` changes
nothing; (3) on a revision other than `revision + 1` nothing is applied,
the state (including the revision) is unchanged, and the full-update
fetch is issued — one `replicant:read` carrying this name and namespace;
(4) on revision exactly `revision + 1` the batch is applied in array
order (the sequential `applyOpsLoop` fold, whose successful run is the
hypothesis), the revision is set to the incoming revision — a strict
increase by exactly 1 — and exactly one `change` notification is emitted
with `(value, oldValue, applied operations)`; (5) the acknowledgement of
the issued read emits `fullUpdate` and then Assigns the fetched value and
revision. -/
theorem c1_handle_operations (w : World) (d : OpsData) :
    (w.rep.status ≠ .declared →
      handleOperations w d = { w := w, msgs := [], events := [], err := none })
  ∧ (w.rep.status = .declared → (d.name ≠ w.rep.name ∨ d.nsp ≠ w.rep.nsp) →
      handleOperations w d = { w := w, msgs := [], events := [], err := none })
  ∧ (w.rep.status = .declared → d.name = w.rep.name → d.nsp = w.rep.nsp →
      d.revision ≠ w.rep.revision + 1 → w.rep.name ≠ "" → w.rep.nsp ≠ "" →
      handleOperations w d =
        { w := w, msgs := [.read w.rep.name w.rep.nsp], events := [], err := none })
  ∧ (∀ ops2 w2, w.rep.status = .declared → d.name = w.rep.name → d.nsp = w.rep.nsp →
      d.revision = w.rep.revision + 1 →
      applyOpsLoop { w with pst := { w.pst with freshId := (cloneVal w.rep.value w.pst.freshId).2 } }
          d.operations = (.ok ops2, w2) →
      handleOperations w d =
        { w := { w2 with rep := { w2.rep with revision := d.revision } }
          msgs := []
          events := [.change (some w2.rep.value) (some (cloneVal w.rep.value w.pst.freshId).1) (some ops2)]
          err := none }
      ∧ (handleOperations w d).w.rep.revision = w.rep.revision + 1)
  ∧ (∀ (value : JVal) (rev : Nat) (v2 : JVal) (pst2 : PState),
      proxyRecursive (rref w.rep) value "/"
          { w.pst with freshId := (cloneVal w.rep.value w.pst.freshId).2 } = (.ok v2, pst2) →
      fullUpdateAck w value rev =
        { w := { rep := { w.rep with value := v2, revision := rev }, pst := pst2 }
          msgs := []
          events := [.fullUpdate value rev,
                     .change (some v2) (some (cloneVal w.rep.value w.pst.freshId).1) none]
          err := none }) := by
  refine ⟨?_, ?_, ?_, ?_, ?_⟩
  · intro hst
    simp [handleOperations, hst]
  · intro hst hmis
    simp only [handleOperations, hst]
    rw [if_neg (by simp [hst]), if_pos hmis]
  · intro hst hn hns hgap hne hnse
    simp only [handleOperations, hst]
    rw [if_neg (by simp [hst]), if_neg (by simp [hn, hns]), if_pos hgap]
    simp [readReplicant, jsFalsy, jsTypeof, hne, hnse]
  · intro ops2 w2 hst hn hns hrev hloop
    have hmain : handleOperations w d =
        { w := { w2 with rep := { w2.rep with revision := d.revision } }
          msgs := []
          events := [.change (some w2.rep.value) (some (cloneVal w.rep.value w.pst.freshId).1) (some ops2)]
          err := none } := by
      simp only [handleOperations, hst]
      rw [if_neg (by simp [hst]), if_neg (by simp [hn, hns]), if_neg (by simp [hrev])]
      simp only [hloop]
    exact ⟨hmain, by rw [hmain, ← hrev]⟩
  · intro value rev v2 pst2 hwrap
    simp only [fullUpdateAck, assignValue, hwrap]

/-- Claim C1, witness: concrete runs of all branches — an undeclared
world ignores a batch; a declared one ignores a foreign batch; a batch at
revision 9 against local revision 5 only issues the read; a batch at
revision 6 applies its update operation, moves the revision from 5 to 6
and emits the single change with the applied operations; and the read
acknowledgement assigns the fetched value. -/
theorem c1_handle_operations_witness :
    handleOperations { rep := sampleRep, pst := samplePState }
        { name := "counter", nsp := "bundle", revision := 1, operations := [] }
      = { w := { rep := sampleRep, pst := samplePState }, msgs := [], events := [], err := none }
  ∧ handleOperations sampleWorld
        { name := "other", nsp := "bundle", revision := 1, operations := [] }
      = { w := sampleWorld, msgs := [], events := [], err := none }
  ∧ handleOperations opsWorld
        { name := "counter", nsp := "bundle", revision := 9, operations := [] }
      = { w := opsWorld, msgs := [.read "counter" "bundle"], events := [], err := none }
  ∧ (handleOperations opsWorld opsData6).events
      = [.change (some (.obj 1 [("x", .num 2)])) (some (.obj 100 [("x", .num 1)]))
          (some [{ path := "/", method := "update", args := .propVal "x" (.num 2)
                   result := some (.num 1) }])]
  ∧ (handleOperations opsWorld opsData6).w.rep.revision = 6
  ∧ fullUpdateAck sampleWorld (.num 9) 7
      = { w := { rep := { sampleWorld.rep with value := .num 9, revision := 7 }
                 pst := samplePState }
          msgs := []
          events := [.fullUpdate (.num 9) 7, .change (some (.num 9)) (some (.num 1)) none]
          err := none } := by
  refine ⟨?_, ?_, ?_, ?_, ?_, ?_⟩
  · exact (c1_handle_operations _ _).1 (by decide)
  · exact (c1_handle_operations _ _).2.1 rfl (Or.inl (by decide))
  · exact (c1_handle_operations _ _).2.2.1 rfl rfl rfl (by decide) (by decide) (by decide)
  · exact ((c1_handle_operations opsWorld opsData6).2.2.2.1
      [{ path := "/", method := "update", args := .propVal "x" (.num 2), result := some (.num 1) }]
      { rep := { sampleRep with status := .declared, revision := 5, value := .obj 1 [("x", .num 2)] }
        pst := { samplePState with freshId := 101 } }
      rfl rfl rfl rfl rfl).1 ▸ rfl
  · exact ((c1_handle_operations opsWorld opsData6).2.2.2.1
      [{ path := "/", method := "update", args := .propVal "x" (.num 2), result := some (.num 1) }]
      { rep := { sampleRep with status := .declared, revision := 5, value := .obj 1 [("x", .num 2)] }
        pst := { samplePState with freshId := 101 } }
      rfl rfl rfl rfl rfl).2
  · exact (c1_handle_operations sampleWorld
        { name := "counter", nsp := "bundle", revision := 1, operations := [] }).2.2.2.2
      (.num 9) 7 (.num 9) samplePState rfl

/-! ## Claim C4: single-owner enforcement -/

/-- Claim C4, counterexample to the claim as stated: wrapping `c4Tree`
for the claimant fails with the ownership error naming `ns1::A` (owner of
the nested node 10), but the failing attempt does **not** leave both
Replicants' state unchanged — the nodes processed before the failure were
already mutated: the root got registered to the claimant and the path
recorded for the claimant's node 5 was rewritten from `/old` to `/a`. -/
theorem c4_counterexample :
    (proxyRecursive c4Claimant c4Tree "/" c4State).1
      = .error (.ownership "ns1" "A" (.obj 10 []))
  ∧ (proxyRecursive c4Claimant c4Tree "/" c4State).2 ≠ c4State
  ∧ getA (proxyRecursive c4Claimant c4Tree "/" c4State).2.metas 5
      = some { owner := c4Claimant, path := "/a", proxy := 5 } := by
  refine ⟨rfl, by decide, by decide⟩

theorem getA_setA {κ α : Type} [DecidableEq κ] (l : List (κ × α)) (k : κ) (v : α) (k2 : κ) :
    getA (setA l k v) k2 = if k = k2 then some v else getA l k2 := by
  induction l with
  | nil =>
    by_cases h : k = k2 <;> simp [setA, getA, h]
  | cons p t ih =>
    obtain ⟨k', v'⟩ := p
    by_cases hk : k' = k
    · subst hk
      by_cases h2 : k' = k2
      · subst h2
        simp [setA, getA]
      · simp [setA, getA, h2]
    · by_cases h2 : k' = k2
      · subst h2
        have h3 : ¬ k = k' := fun he => hk he.symm
        simp [setA, getA, hk, h3]
      · simp [setA, getA, hk, h2, ih]

theorem updateMetaPath_proj (s : PState) (mid : Nat) (path : String) :
    (updateMetaPath s mid path).proxySet = s.proxySet
  ∧ (updateMetaPath s mid path).metadataMap = s.metadataMap
  ∧ (updateMetaPath s mid path).proxyMetadataMap = s.proxyMetadataMap
  ∧ (updateMetaPath s mid path).freshId = s.freshId := by
  unfold updateMetaPath
  cases getA s.metas mid <;> exact ⟨rfl, rfl, rfl, rfl⟩

theorem updateMetaPath_metas_owner (s : PState) (mid : Nat) (path : String) (mid2 : Nat) :
    (getA (updateMetaPath s mid path).metas mid2).map Meta.owner
      = (getA s.metas mid2).map Meta.owner := by
  unfold updateMetaPath
  cases hm : getA s.metas mid with
  | none => rfl
  | some m =>
    simp only
    rw [getA_setA]
    by_cases he : mid = mid2
    · subst he
      rw [if_pos rfl, hm]
      rfl
    · rw [if_neg he]

theorem updateMetaPath_ownerOf (s : PState) (mid : Nat) (path : String) (k : Nat) :
    ownerOf (updateMetaPath s mid path) k = ownerOf s k := by
  obtain ⟨hps, hmm, hpm, _⟩ := updateMetaPath_proj s mid path
  unfold ownerOf metaOf
  rw [hps, hmm, hpm]
  by_cases hmem : k ∈ s.proxySet
  · rw [if_pos hmem, if_pos hmem]
    cases getA s.proxyMetadataMap k with
    | none => rfl
    | some mid2 => simpa using updateMetaPath_metas_owner s mid path mid2
  · rw [if_neg hmem, if_neg hmem]
    cases getA s.metadataMap k with
    | none => rfl
    | some mid2 => simpa using updateMetaPath_metas_owner s mid path mid2

theorem updateMetaPath_freshOK (s : PState) (mid : Nat) (path : String) (hf : freshOK s) :
    freshOK (updateMetaPath s mid path) := by
  obtain ⟨hps, hmm, hpm, hfr⟩ := updateMetaPath_proj s mid path
  unfold freshOK at hf ⊢
  rw [hps, hmm, hpm, hfr]
  exact hf

theorem wrapNode_facts (r : RepRef) (id : Nat) (path : String) (s : PState)
    (hf : freshOK s) (hid : id < s.freshId) :
    s.freshId ≤ (wrapNode r id path s).2.freshId
  ∧ freshOK (wrapNode r id path s).2
  ∧ (∀ k o, ownerOf s k = some o → ownerOf (wrapNode r id path s).2 k = some o) := by
  unfold wrapNode
  by_cases hmem : id ∈ s.proxySet
  · rw [if_pos hmem]
    cases hpk : getA s.proxyMetadataMap id with
    | none => exact ⟨le_refl _, hf, fun k o h => h⟩
    | some mid =>
      dsimp only
      refine ⟨?_, updateMetaPath_freshOK s mid path hf, fun k o h => ?_⟩
      · rw [(updateMetaPath_proj s mid path).2.2.2]
      · rw [updateMetaPath_ownerOf]
        exact h
  · rw [if_neg hmem]
    cases hmk : getA s.metadataMap id with
    | some mid =>
      dsimp only
      refine ⟨?_, updateMetaPath_freshOK s mid path hf, fun k o h => ?_⟩
      · rw [(updateMetaPath_proj s mid path).2.2.2]
      · rw [updateMetaPath_ownerOf]
        exact h
    | none =>
      dsimp only
      refine ⟨Nat.le_succ _, ⟨?_, ?_, ?_⟩, ?_⟩
      · intro j hj
        dsimp only at hj
        have hj1 : s.freshId ≤ j := le_trans (Nat.le_succ _) hj
        obtain ⟨hnp, hnm, hnpm⟩ := hf.1 j hj1
        refine ⟨?_, ?_, ?_⟩
        · intro hmem2
          rcases List.mem_cons.mp hmem2 with he | hmem3
          · omega
          · exact hnp hmem3
        · rw [getA_setA, if_neg (by omega)]
          exact hnm
        · rw [getA_setA, if_neg (by omega)]
          exact hnpm
      · intro k mid2 hk
        dsimp only at hk ⊢
        rw [getA_setA] at hk
        split at hk
        · cases hk
          omega
        · have := hf.2.1 k mid2 hk
          omega
      · intro k mid2 hk
        dsimp only at hk ⊢
        rw [getA_setA] at hk
        split at hk
        · cases hk
          omega
        · have := hf.2.2 k mid2 hk
          omega
      · intro k o h
        have hk_lt : k < s.freshId := by
          by_contra hge
          push_neg at hge
          obtain ⟨hnp, hnm, hnpm⟩ := hf.1 k hge
          unfold ownerOf metaOf at h
          by_cases hmem2 : k ∈ s.proxySet
          · exact hnp hmem2
          · rw [if_neg hmem2, hnm] at h
            simp at h
        unfold ownerOf metaOf at h ⊢
        dsimp only
        by_cases hmem2 : k ∈ s.proxySet
        · rw [if_pos hmem2] at h
          rw [if_pos (List.mem_cons_of_mem _ hmem2)]
          cases hpk2 : getA s.proxyMetadataMap k with
          | none => rw [hpk2] at h; simp at h
          | some mid3 =>
            rw [hpk2] at h
            have hm3 : mid3 < s.freshId := hf.2.2 k mid3 hpk2
            rw [getA_setA, if_neg (by omega)]
            rw [hpk2]
            simp only [Option.some_bind] at h ⊢
            rw [getA_setA, if_neg (by omega)]
            exact h
          -- wait: structure of goal after if_pos: (getA (setA pMap pid pid) k).bind ...
        · rw [if_neg hmem2] at h
          have hknp : k ∉ s.freshId :: s.proxySet := by
            intro hmem3
            rcases List.mem_cons.mp hmem3 with he | hmem4
            · omega
            · exact hmem2 hmem4
          rw [if_neg hknp]
          cases hmk2 : getA s.metadataMap k with
          | none => rw [hmk2] at h; simp at h
          | some mid3 =>
            rw [hmk2] at h
            have hm3 : mid3 < s.freshId := hf.2.1 k mid3 hmk2
            have hkid : ¬ id = k := by
              intro he
              rw [he, hmk2] at hmk
              cases hmk
            rw [getA_setA, if_neg hkid, hmk2]
            simp only [Option.some_bind] at h ⊢
            rw [getA_setA, if_neg (by omega)]
            exact h

theorem proxyRec_mono_n : ∀ n : Nat,
    (∀ (r : RepRef) (v : JVal) (path : String) (s : PState), sizeOf v ≤ n →
      freshOK s → treeOK s v →
      s.freshId ≤ (proxyRecursive r v path s).2.freshId
      ∧ freshOK (proxyRecursive r v path s).2
      ∧ (∀ k o, ownerOf s k = some o → ownerOf (proxyRecursive r v path s).2 k = some o))
  ∧ (∀ (r : RepRef) (path : String) (fields : List (String × JVal)) (s : PState),
      sizeOf fields ≤ n → freshOK s → fieldsOK s fields →
      s.freshId ≤ (proxyFields r path fields s).2.freshId
      ∧ freshOK (proxyFields r path fields s).2
      ∧ (∀ k o, ownerOf s k = some o → ownerOf (proxyFields r path fields s).2 k = some o))
  ∧ (∀ (r : RepRef) (path : String) (elems : List JVal) (i : Nat) (s : PState),
      sizeOf elems ≤ n → freshOK s → elemsOK s elems →
      s.freshId ≤ (proxyElems r path elems i s).2.freshId
      ∧ freshOK (proxyElems r path elems i s).2
      ∧ (∀ k o, ownerOf s k = some o → ownerOf (proxyElems r path elems i s).2 k = some o)) := by
  intro n
  induction n with
  | zero =>
    refine ⟨fun r v path s hsz => ?_, fun r path fields s hsz => ?_, fun r path elems i s hsz => ?_⟩
    · cases v <;> simp_all
    · cases fields <;> simp_all
    · cases elems <;> simp_all
  | succ n ih =>
    obtain ⟨ihv, ihf, ihe⟩ := ih
    refine ⟨fun r v path s hsz hf ht => ?_, fun r path fields s hsz hf ht => ?_,
            fun r path elems i s hsz hf ht => ?_⟩
    · cases v with
      | obj id fields =>
        have hid : id < s.freshId := ht id (by simp [reachIds])
        have hfok : fieldsOK s fields := fun j hj =>
          ht j (by simp [reachIds]; exact Or.inr hj)
        cases haso : assertSingleOwner r (JVal.obj id fields) s with
        | some e =>
          simp only [proxyRecursive, haso]
          exact ⟨le_refl _, hf, fun k o h => h⟩
        | none =>
          simp only [proxyRecursive, haso]
          obtain ⟨hw1, hw2, hw3⟩ := wrapNode_facts r id path s hf hid
          have hsz2 : sizeOf fields ≤ n := by
            simp [JVal.obj.sizeOf_spec] at hsz
            omega
          have hfok2 : fieldsOK (wrapNode r id path s).2 fields := fun j hj =>
            lt_of_lt_of_le (hfok j hj) hw1
          obtain ⟨hp1, hp2, hp3⟩ := ihf r path fields (wrapNode r id path s).2 hsz2 hw2 hfok2
          cases hpf : proxyFields r path fields (wrapNode r id path s).2 with
          | mk res s2 =>
            rw [hpf] at hp1 hp2 hp3
            cases res with
            | error e =>
              exact ⟨le_trans hw1 hp1, hp2, fun k o h => hp3 k o (hw3 k o h)⟩
            | ok f2 =>
              exact ⟨le_trans hw1 hp1, hp2, fun k o h => hp3 k o (hw3 k o h)⟩
      | arr id elems =>
        have hid : id < s.freshId := ht id (by simp [reachIds])
        have heok : elemsOK s elems := fun j hj =>
          ht j (by simp [reachIds]; exact Or.inr hj)
        cases haso : assertSingleOwner r (JVal.arr id elems) s with
        | some e =>
          simp only [proxyRecursive, haso]
          exact ⟨le_refl _, hf, fun k o h => h⟩
        | none =>
          simp only [proxyRecursive, haso]
          obtain ⟨hw1, hw2, hw3⟩ := wrapNode_facts r id path s hf hid
          have hsz2 : sizeOf elems ≤ n := by
            simp [JVal.arr.sizeOf_spec] at hsz
            omega
          have heok2 : elemsOK (wrapNode r id path s).2 elems := fun j hj =>
            lt_of_lt_of_le (heok j hj) hw1
          obtain ⟨hp1, hp2, hp3⟩ := ihe r path elems 0 (wrapNode r id path s).2 hsz2 hw2 heok2
          cases hpe : proxyElems r path elems 0 (wrapNode r id path s).2 with
          | mk res s2 =>
            rw [hpe] at hp1 hp2 hp3
            cases res with
            | error e =>
              exact ⟨le_trans hw1 hp1, hp2, fun k o h => hp3 k o (hw3 k o h)⟩
            | ok e2 =>
              exact ⟨le_trans hw1 hp1, hp2, fun k o h => hp3 k o (hw3 k o h)⟩
      | undef => simp only [proxyRecursive]; exact ⟨le_refl _, hf, fun k o h => h⟩
      | nul => simp only [proxyRecursive]; exact ⟨le_refl _, hf, fun k o h => h⟩
      | bool b => simp only [proxyRecursive]; exact ⟨le_refl _, hf, fun k o h => h⟩
      | num m => simp only [proxyRecursive]; exact ⟨le_refl _, hf, fun k o h => h⟩
      | str st => simp only [proxyRecursive]; exact ⟨le_refl _, hf, fun k o h => h⟩
    · cases fields with
      | nil =>
        simp only [proxyFields]
        exact ⟨le_refl _, hf, fun k o h => h⟩
      | cons kv rest =>
        obtain ⟨key, v⟩ := kv
        have hszv : sizeOf v ≤ n := by
          simp at hsz
          omega
        have hszr : sizeOf rest ≤ n := by
          simp at hsz
          omega
        have hvok : treeOK s v := fun j hj =>
          ht j (by simp [reachFieldIds]; exact Or.inl hj)
        have hrok : fieldsOK s rest := fun j hj =>
          ht j (by simp [reachFieldIds]; exact Or.inr hj)
        simp only [proxyFields]
        obtain ⟨hv1, hv2, hv3⟩ := ihv r v
          (if path ≠ "" then joinPathParts path (escapeKey key) else escapeKey key) s hszv hf hvok
        cases hpv : proxyRecursive r v
            (if path ≠ "" then joinPathParts path (escapeKey key) else escapeKey key) s with
        | mk res s1 =>
          rw [hpv] at hv1 hv2 hv3
          cases res with
          | error e => exact ⟨hv1, hv2, hv3⟩
          | ok w =>
            dsimp only
            have hrok1 : fieldsOK s1 rest := fun j hj => lt_of_lt_of_le (hrok j hj) hv1
            obtain ⟨hr1, hr2, hr3⟩ := ihf r path rest s1 hszr hv2 hrok1
            cases hpr : proxyFields r path rest s1 with
            | mk res2 s2 =>
              rw [hpr] at hr1 hr2 hr3
              cases res2 with
              | error e => exact ⟨le_trans hv1 hr1, hr2, fun k o h => hr3 k o (hv3 k o h)⟩
              | ok rest2 => exact ⟨le_trans hv1 hr1, hr2, fun k o h => hr3 k o (hv3 k o h)⟩
    · cases elems with
      | nil =>
        simp only [proxyElems]
        exact ⟨le_refl _, hf, fun k o h => h⟩
      | cons v rest =>
        have hszv : sizeOf v ≤ n := by
          simp at hsz
          omega
        have hszr : sizeOf rest ≤ n := by
          simp at hsz
          omega
        have hvok : treeOK s v := fun j hj =>
          ht j (by simp [reachElemIds]; exact Or.inl hj)
        have hrok : elemsOK s rest := fun j hj =>
          ht j (by simp [reachElemIds]; exact Or.inr hj)
        simp only [proxyElems]
        obtain ⟨hv1, hv2, hv3⟩ := ihv r v
          (if path ≠ "" then joinPathParts path (escapeKey (Nat.repr i)) else escapeKey (Nat.repr i))
          s hszv hf hvok
        cases hpv : proxyRecursive r v
            (if path ≠ "" then joinPathParts path (escapeKey (Nat.repr i)) else escapeKey (Nat.repr i))
            s with
        | mk res s1 =>
          rw [hpv] at hv1 hv2 hv3
          cases res with
          | error e => exact ⟨hv1, hv2, hv3⟩
          | ok w =>
            dsimp only
            have hrok1 : elemsOK s1 rest := fun j hj => lt_of_lt_of_le (hrok j hj) hv1
            obtain ⟨hr1, hr2, hr3⟩ := ihe r path rest (i + 1) s1 hszr hv2 hrok1
            cases hpr : proxyElems r path rest (i + 1) s1 with
            | mk res2 s2 =>
              rw [hpr] at hr1 hr2 hr3
              cases res2 with
              | error e => exact ⟨le_trans hv1 hr1, hr2, fun k o h => hr3 k o (hv3 k o h)⟩
              | ok rest2 => exact ⟨le_trans hv1 hr1, hr2, fun k o h => hr3 k o (hv3 k o h)⟩

theorem assertSingleOwner_some_shape (r : RepRef) (v : JVal) (s : PState) (e : RepError)
    (h : assertSingleOwner r v s = some e) :
    ∃ o, o ≠ r ∧ e = .ownership o.nsp o.name v := by
  unfold assertSingleOwner at h
  cases hj : jnodeId v with
  | none => rw [hj] at h; cases h
  | some id =>
    simp only [hj] at h
    cases hm : metaOf s id with
    | none =>
      simp only [hm] at h
      exact Option.noConfusion h
    | some m =>
      simp only [hm] at h
      by_cases hne : m.owner = r
      · rw [if_neg (by simp [hne])] at h
        cases h
      · rw [if_pos hne] at h
        exact ⟨m.owner, hne, (Option.some_inj.mp h).symm⟩

theorem assertSingleOwner_none_owner (r : RepRef) (v : JVal) (s : PState) (id : Nat)
    (hid : jnodeId v = some id) (h : assertSingleOwner r v s = none) :
    ∀ o, ownerOf s id = some o → o = r := by
  intro o ho
  unfold assertSingleOwner at h
  simp only [hid] at h
  unfold ownerOf at ho
  cases hm : metaOf s id with
  | none => rw [hm] at ho; cases ho
  | some m =>
    simp only [hm] at h
    rw [hm] at ho
    simp only [Option.map_some'] at ho
    by_cases hne : m.owner = r
    · rw [← Option.some_inj.mp ho]
      exact hne
    · rw [if_pos hne] at h
      cases h

theorem proxyRec_err_n : ∀ n : Nat,
    (∀ (r : RepRef) (v : JVal) (path : String) (s : PState) (e : RepError), sizeOf v ≤ n →
      (proxyRecursive r v path s).1 = .error e →
      ∃ o val, o ≠ r ∧ e = .ownership o.nsp o.name val)
  ∧ (∀ (r : RepRef) (path : String) (fields : List (String × JVal)) (s : PState) (e : RepError),
      sizeOf fields ≤ n → (proxyFields r path fields s).1 = .error e →
      ∃ o val, o ≠ r ∧ e = .ownership o.nsp o.name val)
  ∧ (∀ (r : RepRef) (path : String) (elems : List JVal) (i : Nat) (s : PState) (e : RepError),
      sizeOf elems ≤ n → (proxyElems r path elems i s).1 = .error e →
      ∃ o val, o ≠ r ∧ e = .ownership o.nsp o.name val) := by
  intro n
  induction n with
  | zero =>
    refine ⟨fun r v path s e hsz => ?_, fun r path fields s e hsz => ?_,
            fun r path elems i s e hsz => ?_⟩
    · cases v <;> simp_all
    · cases fields <;> simp_all
    · cases elems <;> simp_all
  | succ n ih =>
    obtain ⟨ihv, ihf, ihe⟩ := ih
    refine ⟨fun r v path s e hsz he => ?_, fun r path fields s e hsz he => ?_,
            fun r path elems i s e hsz he => ?_⟩
    · cases v with
      | obj id fields =>
        cases haso : assertSingleOwner r (JVal.obj id fields) s with
        | some e2 =>
          simp only [proxyRecursive, haso] at he
          obtain ⟨o, ho, hsh⟩ := assertSingleOwner_some_shape r _ s e2 haso
          have h3 : e2 = e := by injection he
          exact ⟨o, JVal.obj id fields, ho, h3 ▸ hsh⟩
        | none =>
          simp only [proxyRecursive, haso] at he
          have hsz2 : sizeOf fields ≤ n := by
            simp [JVal.obj.sizeOf_spec] at hsz
            omega
          cases hpf : proxyFields r path fields (wrapNode r id path s).2 with
          | mk res s2 =>
            rw [hpf] at he
            cases res with
            | error e2 =>
              dsimp only at he
              have h3 : e2 = e := by injection he
              subst h3
              exact ihf r path fields (wrapNode r id path s).2 e2 hsz2 (by rw [hpf])
            | ok f2 =>
              dsimp only at he
              cases he
      | arr id elems =>
        cases haso : assertSingleOwner r (JVal.arr id elems) s with
        | some e2 =>
          simp only [proxyRecursive, haso] at he
          obtain ⟨o, ho, hsh⟩ := assertSingleOwner_some_shape r _ s e2 haso
          have h3 : e2 = e := by injection he
          exact ⟨o, JVal.arr id elems, ho, h3 ▸ hsh⟩
        | none =>
          simp only [proxyRecursive, haso] at he
          have hsz2 : sizeOf elems ≤ n := by
            simp [JVal.arr.sizeOf_spec] at hsz
            omega
          cases hpe : proxyElems r path elems 0 (wrapNode r id path s).2 with
          | mk res s2 =>
            rw [hpe] at he
            cases res with
            | error e2 =>
              dsimp only at he
              have h3 : e2 = e := by injection he
              subst h3
              exact ihe r path elems 0 (wrapNode r id path s).2 e2 hsz2 (by rw [hpe])
            | ok e3 =>
              dsimp only at he
              cases he
      | undef => simp [proxyRecursive] at he
      | nul => simp [proxyRecursive] at he
      | bool b => simp [proxyRecursive] at he
      | num m => simp [proxyRecursive] at he
      | str st => simp [proxyRecursive] at he
    · cases fields with
      | nil => simp [proxyFields] at he
      | cons kv rest =>
        obtain ⟨key, v⟩ := kv
        have hszv : sizeOf v ≤ n := by simp at hsz; omega
        have hszr : sizeOf rest ≤ n := by simp at hsz; omega
        simp only [proxyFields] at he
        cases hpv : proxyRecursive r v
            (if path ≠ "" then joinPathParts path (escapeKey key) else escapeKey key) s with
        | mk res s1 =>
          rw [hpv] at he
          cases res with
          | error e2 =>
            dsimp only at he
            have h3 : e2 = e := by injection he
            subst h3
            exact ihv r v _ s e2 hszv (by rw [hpv])
          | ok w =>
            dsimp only at he
            cases hpr : proxyFields r path rest s1 with
            | mk res2 s2 =>
              rw [hpr] at he
              cases res2 with
              | error e2 =>
                dsimp only at he
                have h3 : e2 = e := by injection he
                subst h3
                exact ihf r path rest s1 e2 hszr (by rw [hpr])
              | ok rest2 =>
                dsimp only at he
                cases he
    · cases elems with
      | nil => simp [proxyElems] at he
      | cons v rest =>
        have hszv : sizeOf v ≤ n := by simp at hsz; omega
        have hszr : sizeOf rest ≤ n := by simp at hsz; omega
        simp only [proxyElems] at he
        cases hpv : proxyRecursive r v
            (if path ≠ "" then joinPathParts path (escapeKey (Nat.repr i))
             else escapeKey (Nat.repr i)) s with
        | mk res s1 =>
          rw [hpv] at he
          cases res with
          | error e2 =>
            dsimp only at he
            have h3 : e2 = e := by injection he
            subst h3
            exact ihv r v _ s e2 hszv (by rw [hpv])
          | ok w =>
            dsimp only at he
            cases hpr : proxyElems r path rest (i + 1) s1 with
            | mk res2 s2 =>
              rw [hpr] at he
              cases res2 with
              | error e2 =>
                dsimp only at he
                have h3 : e2 = e := by injection he
                subst h3
                exact ihe r path rest (i + 1) s1 e2 hszr (by rw [hpr])
              | ok rest2 =>
                dsimp only at he
                cases he

theorem proxyRec_conflict_n : ∀ n : Nat,
    (∀ (r : RepRef) (v : JVal) (path : String) (s : PState), sizeOf v ≤ n →
      freshOK s → treeOK s v →
      (∃ id ∈ reachIds v, ∃ o, ownerOf s id = some o ∧ o ≠ r) →
      ∃ e, (proxyRecursive r v path s).1 = .error e)
  ∧ (∀ (r : RepRef) (path : String) (fields : List (String × JVal)) (s : PState),
      sizeOf fields ≤ n → freshOK s → fieldsOK s fields →
      (∃ id ∈ reachFieldIds fields, ∃ o, ownerOf s id = some o ∧ o ≠ r) →
      ∃ e, (proxyFields r path fields s).1 = .error e)
  ∧ (∀ (r : RepRef) (path : String) (elems : List JVal) (i : Nat) (s : PState),
      sizeOf elems ≤ n → freshOK s → elemsOK s elems →
      (∃ id ∈ reachElemIds elems, ∃ o, ownerOf s id = some o ∧ o ≠ r) →
      ∃ e, (proxyElems r path elems i s).1 = .error e) := by
  intro n
  induction n with
  | zero =>
    refine ⟨fun r v path s hsz => ?_, fun r path fields s hsz => ?_,
            fun r path elems i s hsz => ?_⟩
    · cases v <;> simp_all
    · cases fields <;> simp_all
    · cases elems <;> simp_all
  | succ n ih =>
    obtain ⟨ihv, ihf, ihe⟩ := ih
    refine ⟨fun r v path s hsz hf ht hc => ?_, fun r path fields s hsz hf ht hc => ?_,
            fun r path elems i s hsz hf ht hc => ?_⟩
    · cases v with
      | obj id fields =>
        obtain ⟨id2, hmem, o, ho, honeq⟩ := hc
        have hid : id < s.freshId := ht id (by simp [reachIds])
        cases haso : assertSingleOwner r (JVal.obj id fields) s with
        | some e =>
          exact ⟨e, by simp [proxyRecursive, haso]⟩
        | none =>
          have hmem2 : id2 ∈ reachFieldIds fields := by
            simp only [reachIds, List.mem_cons] at hmem
            rcases hmem with he | hmem2
            · exact absurd
                (assertSingleOwner_none_owner r (JVal.obj id fields) s id rfl haso o (he ▸ ho))
                honeq
            · exact hmem2
          obtain ⟨hw1, hw2, hw3⟩ := wrapNode_facts r id path s hf hid
          have hfok2 : fieldsOK (wrapNode r id path s).2 fields := fun j hj =>
            lt_of_lt_of_le (ht j (by simp [reachIds]; exact Or.inr hj)) hw1
          have hsz2 : sizeOf fields ≤ n := by
            simp [JVal.obj.sizeOf_spec] at hsz
            omega
          obtain ⟨e, hpe⟩ := ihf r path fields (wrapNode r id path s).2 hsz2 hw2 hfok2
            ⟨id2, hmem2, o, hw3 id2 o ho, honeq⟩
          refine ⟨e, ?_⟩
          simp only [proxyRecursive, haso]
          cases hpf : proxyFields r path fields (wrapNode r id path s).2 with
          | mk res s2 =>
            rw [hpf] at hpe
            cases res with
            | error e2 =>
              dsimp only at hpe ⊢
              have h3 : e2 = e := by injection hpe
              rw [h3]
            | ok f2 =>
              dsimp only at hpe
              cases hpe
      | arr id elems =>
        obtain ⟨id2, hmem, o, ho, honeq⟩ := hc
        have hid : id < s.freshId := ht id (by simp [reachIds])
        cases haso : assertSingleOwner r (JVal.arr id elems) s with
        | some e =>
          exact ⟨e, by simp [proxyRecursive, haso]⟩
        | none =>
          have hmem2 : id2 ∈ reachElemIds elems := by
            simp only [reachIds, List.mem_cons] at hmem
            rcases hmem with he | hmem2
            · exact absurd
                (assertSingleOwner_none_owner r (JVal.arr id elems) s id rfl haso o (he ▸ ho))
                honeq
            · exact hmem2
          obtain ⟨hw1, hw2, hw3⟩ := wrapNode_facts r id path s hf hid
          have heok2 : elemsOK (wrapNode r id path s).2 elems := fun j hj =>
            lt_of_lt_of_le (ht j (by simp [reachIds]; exact Or.inr hj)) hw1
          have hsz2 : sizeOf elems ≤ n := by
            simp [JVal.arr.sizeOf_spec] at hsz
            omega
          obtain ⟨e, hpe⟩ := ihe r path elems 0 (wrapNode r id path s).2 hsz2 hw2 heok2
            ⟨id2, hmem2, o, hw3 id2 o ho, honeq⟩
          refine ⟨e, ?_⟩
          simp only [proxyRecursive, haso]
          cases hpf : proxyElems r path elems 0 (wrapNode r id path s).2 with
          | mk res s2 =>
            rw [hpf] at hpe
            cases res with
            | error e2 =>
              dsimp only at hpe ⊢
              have h3 : e2 = e := by injection hpe
              rw [h3]
            | ok f2 =>
              dsimp only at hpe
              cases hpe
      | undef => simp [reachIds] at hc
      | nul => simp [reachIds] at hc
      | bool b => simp [reachIds] at hc
      | num m => simp [reachIds] at hc
      | str st => simp [reachIds] at hc
    · cases fields with
      | nil => simp [reachFieldIds] at hc
      | cons kv rest =>
        obtain ⟨key, v⟩ := kv
        obtain ⟨id2, hmem, o, ho, honeq⟩ := hc
        have hszv : sizeOf v ≤ n := by simp at hsz; omega
        have hszr : sizeOf rest ≤ n := by simp at hsz; omega
        have hvok : treeOK s v := fun j hj =>
          ht j (by simp [reachFieldIds]; exact Or.inl hj)
        have hrok : fieldsOK s rest := fun j hj =>
          ht j (by simp [reachFieldIds]; exact Or.inr hj)
        simp only [reachFieldIds, List.mem_append] at hmem
        simp only [proxyFields]
        rcases hmem with hmv | hmr
        · obtain ⟨e, hpe⟩ := ihv r v
            (if path ≠ "" then joinPathParts path (escapeKey key) else escapeKey key) s
            hszv hf hvok ⟨id2, hmv, o, ho, honeq⟩
          refine ⟨e, ?_⟩
          cases hpv : proxyRecursive r v
              (if path ≠ "" then joinPathParts path (escapeKey key) else escapeKey key) s with
          | mk res s1 =>
            rw [hpv] at hpe
            cases res with
            | error e2 =>
              dsimp only at hpe ⊢
              have h3 : e2 = e := by injection hpe
              rw [h3]
            | ok w =>
              dsimp only at hpe
              cases hpe
        · cases hpv : proxyRecursive r v
              (if path ≠ "" then joinPathParts path (escapeKey key) else escapeKey key) s with
          | mk res s1 =>
            cases res with
            | error e2 => exact ⟨e2, rfl⟩
            | ok w =>
              obtain ⟨hm1, hm2, hm3⟩ := (proxyRec_mono_n (sizeOf v)).1 r v
                (if path ≠ "" then joinPathParts path (escapeKey key) else escapeKey key) s
                (le_refl _) hf hvok
              rw [hpv] at hm1 hm2 hm3
              have hrok1 : fieldsOK s1 rest := fun j hj => lt_of_lt_of_le (hrok j hj) hm1
              obtain ⟨e, hpe⟩ := ihf r path rest s1 hszr hm2 hrok1
                ⟨id2, hmr, o, hm3 id2 o ho, honeq⟩
              refine ⟨e, ?_⟩
              dsimp only
              cases hpr : proxyFields r path rest s1 with
              | mk res2 s2 =>
                rw [hpr] at hpe
                cases res2 with
                | error e2 =>
                  dsimp only at hpe ⊢
                  have h3 : e2 = e := by injection hpe
                  rw [h3]
                | ok rest2 =>
                  dsimp only at hpe
                  cases hpe
    · cases elems with
      | nil => simp [reachElemIds] at hc
      | cons v rest =>
        obtain ⟨id2, hmem, o, ho, honeq⟩ := hc
        have hszv : sizeOf v ≤ n := by simp at hsz; omega
        have hszr : sizeOf rest ≤ n := by simp at hsz; omega
        have hvok : treeOK s v := fun j hj =>
          ht j (by simp [reachElemIds]; exact Or.inl hj)
        have hrok : elemsOK s rest := fun j hj =>
          ht j (by simp [reachElemIds]; exact Or.inr hj)
        simp only [reachElemIds, List.mem_append] at hmem
        simp only [proxyElems]
        rcases hmem with hmv | hmr
        · obtain ⟨e, hpe⟩ := ihv r v
            (if path ≠ "" then joinPathParts path (escapeKey (Nat.repr i))
             else escapeKey (Nat.repr i)) s
            hszv hf hvok ⟨id2, hmv, o, ho, honeq⟩
          refine ⟨e, ?_⟩
          cases hpv : proxyRecursive r v
              (if path ≠ "" then joinPathParts path (escapeKey (Nat.repr i))
               else escapeKey (Nat.repr i)) s with
          | mk res s1 =>
            rw [hpv] at hpe
            cases res with
            | error e2 =>
              dsimp only at hpe ⊢
              have h3 : e2 = e := by injection hpe
              rw [h3]
            | ok w =>
              dsimp only at hpe
              cases hpe
        · cases hpv : proxyRecursive r v
              (if path ≠ "" then joinPathParts path (escapeKey (Nat.repr i))
               else escapeKey (Nat.repr i)) s with
          | mk res s1 =>
            cases res with
            | error e2 => exact ⟨e2, rfl⟩
            | ok w =>
              obtain ⟨hm1, hm2, hm3⟩ := (proxyRec_mono_n (sizeOf v)).1 r v
                (if path ≠ "" then joinPathParts path (escapeKey (Nat.repr i))
                 else escapeKey (Nat.repr i)) s
                (le_refl _) hf hvok
              rw [hpv] at hm1 hm2 hm3
              have hrok1 : elemsOK s1 rest := fun j hj => lt_of_lt_of_le (hrok j hj) hm1
              obtain ⟨e, hpe⟩ := ihe r path rest (i + 1) s1 hszr hm2 hrok1
                ⟨id2, hmr, o, hm3 id2 o ho, honeq⟩
              refine ⟨e, ?_⟩
              dsimp only
              cases hpr : proxyElems r path rest (i + 1) s1 with
              | mk res2 s2 =>
                rw [hpr] at hpe
                cases res2 with
                | error e2 =>
                  dsimp only at hpe ⊢
                  have h3 : e2 = e := by injection hpe
                  rw [h3]
                | ok rest2 =>
                  dsimp only at hpe
                  cases hpe

theorem assertSingleOwner_of_meta (r : RepRef) (v : JVal) (s : PState) (id : Nat) (m : Meta)
    (hid : jnodeId v = some id) (hm : metaOf s id = some m) (hne : m.owner ≠ r) :
    assertSingleOwner r v s = some (.ownership m.owner.nsp m.owner.name v) := by
  unfold assertSingleOwner
  simp only [hid, hm]
  rw [if_pos hne]

/-- Claim C4 (amended): wrapping a node directly owned by a different
Replicant fails with the ownership error naming the conflicting owner and
leaves the module state unchanged; wrapping a tree with an owned node
anywhere among its reachable descendants also fails with an ownership
error naming an owner other than the wrapping Replicant — but in the
descendant case the metadata registered or re-pathed for the nodes
processed before the failure persists (the state is not rolled back, as
the counterexample shows). -/
theorem c4_single_owner :
    (∀ (r : RepRef) (v : JVal) (path : String) (s : PState) (id : Nat) (m : Meta),
      jnodeId v = some id → metaOf s id = some m → m.owner ≠ r →
      proxyRecursive r v path s = (.error (.ownership m.owner.nsp m.owner.name v), s))
  ∧ (∀ (r : RepRef) (v : JVal) (path : String) (s : PState),
      freshOK s → treeOK s v →
      (∃ id ∈ reachIds v, ∃ o, ownerOf s id = some o ∧ o ≠ r) →
      ∃ o2 val, o2 ≠ r ∧
        (proxyRecursive r v path s).1 = .error (.ownership o2.nsp o2.name val)) := by
  constructor
  · intro r v path s id m hid hm hne
    cases v with
    | obj id0 fields =>
      simp only [proxyRecursive, assertSingleOwner_of_meta r _ s id m hid hm hne]
    | arr id0 elems =>
      simp only [proxyRecursive, assertSingleOwner_of_meta r _ s id m hid hm hne]
    | undef => cases hid
    | nul => cases hid
    | bool b => cases hid
    | num n2 => cases hid
    | str st => cases hid
  · intro r v path s hf ht hc
    obtain ⟨e, he⟩ := (proxyRec_conflict_n (sizeOf v)).1 r v path s (le_refl _) hf ht hc
    obtain ⟨o2, val, ho2, hsh⟩ := (proxyRec_err_n (sizeOf v)).1 r v path s e (le_refl _) he
    exact ⟨o2, val, ho2, hsh ▸ he⟩

/-- Claim C4, witness: wrapping `ns1::A`'s node 10 directly for the
claimant fails naming `ns1::A` with the state untouched; wrapping
`c4Tree`, which reaches node 10 as a descendant, also fails with an
ownership error naming an owner other than the claimant. -/
theorem c4_single_owner_witness :
    proxyRecursive c4Claimant (.obj 10 []) "/" c4State
      = (.error (.ownership "ns1" "A" (.obj 10 [])), c4State)
  ∧ (∃ o2 val, o2 ≠ c4Claimant ∧
      (proxyRecursive c4Claimant c4Tree "/" c4State).1
        = .error (.ownership o2.nsp o2.name val)) := by
  constructor
  · exact c4_single_owner.1 c4Claimant (.obj 10 []) "/" c4State 10
      { owner := c4Owner, path := "/x", proxy := 10 } rfl (by decide) (by decide)
  · refine c4_single_owner.2 c4Claimant c4Tree "/" c4State ?_ ?_ ?_
    · refine ⟨fun j hj => ?_, fun id mid h => ?_, fun id mid h => ?_⟩
      · simp only [c4State] at hj
        refine ⟨by simp [c4State], ?_, rfl⟩
        simp only [c4State, getA]
        rw [if_neg (by omega), if_neg (by omega)]
      · simp only [c4State, getA] at h
        split at h
        · cases h
          decide
        · split at h
          · cases h
            decide
          · cases h
      · simp only [c4State, getA] at h
        cases h
    · intro id hid
      have hr : reachIds c4Tree = [1, 5, 10] := by decide
      rw [hr] at hid
      simp only [List.mem_cons, List.not_mem_nil, or_false] at hid
      have : c4State.freshId = 100 := rfl
      rw [this]
      rcases hid with h1 | h5 | h10 <;> omega
    · refine ⟨10, ?_, c4Owner, by decide, by decide⟩
      have hr : reachIds c4Tree = [1, 5, 10] := by decide
      rw [hr]
      simp
